import Mathlib

/-!
Verification of the PFFaRVE analysis pipeline (`app.py`).

This file gives a shallow embedding of the core request pipeline of the
Flask application in `app.py`:

* `read_file_with_encoding` — the encoding-tolerant reader (app.py lines 57-69),
  modelled at the byte/decode level over the candidate list
  `['utf-8', 'windows-1252', 'latin-1']`, including the universal-newline
  translation performed by text-mode `open` and the fact that the broken
  one-argument `UnicodeDecodeError` raise on line 69 actually produces a
  `TypeError`.  Bytes are modelled as `Nat` (a real byte is `< 256`); text is
  modelled as `List Char` (Unicode scalar values, which is what successful
  Python decoding produces for these codecs).
* `jsonLoads` — a model of Python's `json.loads` on the JSON fragment the
  pipeline exercises.  Numbers are modelled as integers (floats, `NaN`,
  `Infinity` and lone-surrogate `\u` escapes are not modelled: on such inputs
  the model returns `none`).
* `buildPrompt` — the f-string prompt template (app.py lines 237-259).
* `call_abacus_api` — the API client (app.py lines 71-172).  The network is an
  explicit oracle (`NetOutcome`); the returned `Bool` records whether the
  network/API branch was reached, so "no network call" claims are statable.
* `responseSplit` — the response splitter (app.py lines 272-282), using a
  faithful model `pySplit` of Python's `str.split` and `pyStrip` of
  `str.strip`.
* `analyze` — the `/analyze` request handler from JSON parsing onwards
  (app.py lines 178-320).  File upload plumbing is identity on content; the
  uploaded severity and dataset payloads are the byte inputs.  Python
  exceptions (including the `AttributeError` raised when `logger` is `None`
  but `logger.info` is called at line 229, and type errors from subscripting
  non-dict JSON values) are modelled explicitly as `PyErr` values that the
  outer `try/except` turns into an `Analysis failed: ...` response.

Python error message details that the pipeline only interpolates (never
inspects) are reproduced as fixed representative strings.
-/

/-- Convert a Lean string literal to the `List Char` representation used for
Python strings throughout this development. -/
def pstr (s : String) : List Char := s.data

/-- Whitespace stripped by Python's `str.strip()` (ASCII portion). -/
def isPyWs (c : Char) : Bool :=
  c == ' ' || c == '\t' || c == '\n' || c == '\x0d' || c == '\x0b' || c == '\x0c'

/-- Model of Python `str.strip()`. -/
def pyStrip (s : List Char) : List Char :=
  ((s.dropWhile isPyWs).reverse.dropWhile isPyWs).reverse

/-- State-passing worker for Python universal-newline translation.
`prevCR` records that the previous character was a carriage return, whose
emitted `\n` must swallow an immediately following `\n`. -/
def pyUNLGo (prevCR : Bool) : List Char → List Char
  | [] => []
  | c :: rest =>
    if c = '\n' then
      if prevCR then pyUNLGo false rest else '\n' :: pyUNLGo false rest
    else if c = '\x0d' then '\n' :: pyUNLGo true rest
    else c :: pyUNLGo false rest

/-- Universal-newline translation performed by text-mode `open(..., 'r')`
with the default `newline=None` (as on app.py line 63): every `\r\n` pair
and every lone `\r` in the decoded stream becomes `\n`. -/
def pyUniversalNewlines (s : List Char) : List Char := pyUNLGo false s

/-- First-occurrence splitter: `splitOnce? pat s = some (a, b)` when `pat`
occurs in `s`, with `a` the part before the first occurrence and `b` the part
after it; `none` when `pat` does not occur (for nonempty `pat`). -/
def splitOnce? (pat : List Char) : List Char → Option (List Char × List Char)
  | [] => if pat.isPrefixOf ([] : List Char) then some ([], []) else none
  | c :: rest =>
    if pat.isPrefixOf (c :: rest) then some ([], (c :: rest).drop pat.length)
    else (splitOnce? pat rest).map (fun ab => (c :: ab.1, ab.2))

/-- Fuel-indexed worker for `pySplit`.  Each recursion step removes at least
one character from the remainder, so fuel `s.length` is always sufficient for
a nonempty pattern. -/
def pySplitGo (pat : List Char) : Nat → List Char → List (List Char)
  | 0, s => [s]
  | fuel + 1, s =>
    match splitOnce? pat s with
    | none => [s]
    | some (a, b) => a :: pySplitGo pat fuel b

/-- Model of Python `s.split(pat)` for a nonempty separator `pat`. -/
def pySplit (pat s : List Char) : List (List Char) := pySplitGo pat s.length s

/-- The part of `s` before the first occurrence of `pat` (all of `s` when
`pat` does not occur) — the specification-side description of `split(pat)[0]`
used to characterize the splitter. -/
def headSplitOnce (pat s : List Char) : List Char :=
  match splitOnce? pat s with
  | none => s
  | some (x, _) => x

/-- UTF-8 encoding of one Unicode scalar value (Python `str.encode('utf-8')`,
one character). -/
def utf8EncodeChar (c : Char) : List Nat :=
  let n := c.toNat
  if n < 0x80 then [n]
  else if n < 0x800 then [0xC0 + n / 0x40, 0x80 + n % 0x40]
  else if n < 0x10000 then
    [0xE0 + n / 0x1000, 0x80 + (n / 0x40) % 0x40, 0x80 + n % 0x40]
  else
    [0xF0 + n / 0x40000, 0x80 + (n / 0x1000) % 0x40, 0x80 + (n / 0x40) % 0x40,
      0x80 + n % 0x40]

/-- UTF-8 encoding of a text. -/
def utf8Encode : List Char → List Nat
  | [] => []
  | c :: t => utf8EncodeChar c ++ utf8Encode t

/-- One step of strict UTF-8 decoding (Python `bytes.decode('utf-8')`):
decode the scalar value starting at the head of the byte string, returning it
with the remaining bytes.  Rejects stray continuation bytes, overlong forms
(`0xC0`/`0xC1` leads, and the tightened second-byte ranges for `0xE0`/`0xF0`),
surrogates (`0xED` with a second byte `≥ 0xA0`), values above `U+10FFFF`
(leads `≥ 0xF5`, and `0xF4` with a second byte `≥ 0x90`) and truncated
sequences. -/
def utf8DecodeOne : List Nat → Option (Char × List Nat)
  | [] => none
  | b :: bs =>
    if b < 0x80 then some (Char.ofNat b, bs)
    else if b < 0xC2 then none
    else if b < 0xE0 then
      match bs with
      | b2 :: bs2 =>
        if 0x80 ≤ b2 ∧ b2 < 0xC0 then
          some (Char.ofNat ((b - 0xC0) * 0x40 + (b2 - 0x80)), bs2)
        else none
      | [] => none
    else if b < 0xF0 then
      match bs with
      | b2 :: b3 :: bs3 =>
        let lo2 := if b = 0xE0 then 0xA0 else 0x80
        let hi2 := if b = 0xED then 0xA0 else 0xC0
        if (lo2 ≤ b2 ∧ b2 < hi2) ∧ 0x80 ≤ b3 ∧ b3 < 0xC0 then
          some (Char.ofNat ((b - 0xE0) * 0x1000 + (b2 - 0x80) * 0x40 + (b3 - 0x80)), bs3)
        else none
      | _ => none
    else if b < 0xF5 then
      match bs with
      | b2 :: b3 :: b4 :: bs4 =>
        let lo2 := if b = 0xF0 then 0x90 else 0x80
        let hi2 := if b = 0xF4 then 0x90 else 0xC0
        if (lo2 ≤ b2 ∧ b2 < hi2) ∧ (0x80 ≤ b3 ∧ b3 < 0xC0) ∧ 0x80 ≤ b4 ∧ b4 < 0xC0 then
          some (Char.ofNat ((b - 0xF0) * 0x40000 + (b2 - 0x80) * 0x1000 +
            (b3 - 0x80) * 0x40 + (b4 - 0x80)), bs4)
        else none
      | _ => none
    else none

/-- Fuel-indexed UTF-8 decoding loop.  Every successful `utf8DecodeOne` step
consumes at least one byte, so fuel equal to the byte count (see `utf8Decode`)
never runs out. -/
def utf8DecodeGo : Nat → List Nat → Option (List Char)
  | _, [] => some []
  | 0, _ :: _ => none
  | fuel + 1, b :: bs =>
    match utf8DecodeOne (b :: bs) with
    | none => none
    | some (c, rest) => (utf8DecodeGo fuel rest).map (fun t => c :: t)

/-- Strict UTF-8 decoding of a byte string. -/
def utf8Decode (bs : List Nat) : Option (List Char) := utf8DecodeGo bs.length bs

/-- Decode one byte as Windows-1252 (Python codec `cp1252`): the `0x80`-`0x9F`
row has 27 defined entries; bytes `0x81, 0x8D, 0x8F, 0x90, 0x9D` are
undefined and raise a decode error. -/
def cp1252DecodeByte (b : Nat) : Option Char :=
  if b < 0x80 then some (Char.ofNat b)
  else if b < 0xA0 then
    match b with
    | 0x80 => some (Char.ofNat 0x20AC)
    | 0x82 => some (Char.ofNat 0x201A)
    | 0x83 => some (Char.ofNat 0x0192)
    | 0x84 => some (Char.ofNat 0x201E)
    | 0x85 => some (Char.ofNat 0x2026)
    | 0x86 => some (Char.ofNat 0x2020)
    | 0x87 => some (Char.ofNat 0x2021)
    | 0x88 => some (Char.ofNat 0x02C6)
    | 0x89 => some (Char.ofNat 0x2030)
    | 0x8A => some (Char.ofNat 0x0160)
    | 0x8B => some (Char.ofNat 0x2039)
    | 0x8C => some (Char.ofNat 0x0152)
    | 0x8E => some (Char.ofNat 0x017D)
    | 0x91 => some (Char.ofNat 0x2018)
    | 0x92 => some (Char.ofNat 0x2019)
    | 0x93 => some (Char.ofNat 0x201C)
    | 0x94 => some (Char.ofNat 0x201D)
    | 0x95 => some (Char.ofNat 0x2022)
    | 0x96 => some (Char.ofNat 0x2013)
    | 0x97 => some (Char.ofNat 0x2014)
    | 0x98 => some (Char.ofNat 0x02DC)
    | 0x99 => some (Char.ofNat 0x2122)
    | 0x9A => some (Char.ofNat 0x0161)
    | 0x9B => some (Char.ofNat 0x203A)
    | 0x9C => some (Char.ofNat 0x0153)
    | 0x9E => some (Char.ofNat 0x017E)
    | 0x9F => some (Char.ofNat 0x0178)
    | _ => none
  else if b < 0x100 then some (Char.ofNat b)
  else none

/-- Decode one byte as Latin-1 (Python codec `latin-1`): total on real bytes. -/
def latin1DecodeByte (b : Nat) : Option Char :=
  if b < 0x100 then some (Char.ofNat b) else none

/-- Effectful map over a list in the `Option` monad, written out so proofs can
proceed by plain structural induction. -/
def mapOption (f : α → Option β) : List α → Option (List β)
  | [] => some []
  | a :: t =>
    match f a with
    | none => none
    | some b => (mapOption f t).map (fun u => b :: u)

/-- Windows-1252 decoding of a byte string. -/
def cp1252Decode (bs : List Nat) : Option (List Char) := mapOption cp1252DecodeByte bs

/-- Latin-1 decoding of a byte string. -/
def latin1Decode (bs : List Nat) : Option (List Char) := mapOption latin1DecodeByte bs

/-- Windows-1252 encoding of one character, defined as the inverse search of
the decode table (mirrors the codec's bijectivity on its defined range). -/
def cp1252EncodeChar (c : Char) : Option Nat :=
  (List.range 0x100).find? (fun b => cp1252DecodeByte b == some c)

/-- Windows-1252 encoding of a text (`str.encode('windows-1252')`). -/
def cp1252Encode (t : List Char) : Option (List Nat) := mapOption cp1252EncodeChar t

/-- Latin-1 encoding of one character. -/
def latin1EncodeChar (c : Char) : Option Nat :=
  if c.toNat < 0x100 then some c.toNat else none

/-- Latin-1 encoding of a text (`str.encode('latin-1')`). -/
def latin1Encode (t : List Char) : Option (List Nat) := mapOption latin1EncodeChar t

/-- What the exhausted-encodings `raise` on app.py line 69 actually
produces: the `raise UnicodeDecodeError(f"...")` passes one argument to a
constructor that takes five, so the statement itself raises
`TypeError('function takes exactly 5 arguments (1 given)')` — the intended
message enumerating the attempted encodings is never attached to any
exception.  This is `str(e)` of that `TypeError`.  (For real byte inputs the
branch is unreachable, since `latin-1` decodes every byte.) -/
def brokenRaiseDetail : List Char := pstr "function takes exactly 5 arguments (1 given)"

/-- The encoding-tolerant reader (app.py lines 57-69): try `utf-8`, then
`windows-1252`, then `latin-1`; a successful text-mode `read()` returns the
decoded text after universal-newline translation, together with the name of
the first encoding that succeeded.  When every candidate fails, what escapes
is the `TypeError` of the broken `raise` (see `brokenRaiseDetail`). -/
def read_file_with_encoding (bs : List Nat) :
    Except (List Char) (List Char × List Char) :=
  match utf8Decode bs with
  | some t => .ok (pyUniversalNewlines t, pstr "utf-8")
  | none =>
    match cp1252Decode bs with
    | some t => .ok (pyUniversalNewlines t, pstr "windows-1252")
    | none =>
      match latin1Decode bs with
      | some t => .ok (pyUniversalNewlines t, pstr "latin-1")
      | none => .error brokenRaiseDetail

/-- Boolean success test for `Except` results. -/
def exceptOk : Except ε α → Bool
  | .ok _ => true
  | .error _ => false

/-- Substring test (Python `pat in s` for strings). -/
def containsSub (pat s : List Char) : Bool := (splitOnce? pat s).isSome

/-- JSON values as produced by Python's `json.loads` on the fragment this
pipeline exercises.  Objects are insertion-ordered key/value lists with
unique keys (duplicates collapse, last value wins, as for a Python `dict`).
Numbers are modelled as integers. -/
inductive JValue where
  | null
  | bool (b : Bool)
  | num (n : Int)
  | str (s : List Char)
  | arr (xs : List JValue)
  | obj (kvs : List (List Char × JValue))

instance : Inhabited JValue := ⟨JValue.null⟩

/-- Lookup in an object's key/value list (Python `d[k]` / `k in d`). -/
def lookupKey (kvs : List (List Char × JValue)) (k : List Char) : Option JValue :=
  match kvs with
  | [] => none
  | (k2, v) :: rest => if k2 = k then some v else lookupKey rest k

/-- Insert into an object's key/value list with Python `dict` semantics:
an existing key keeps its position and gets the new value, a new key is
appended. -/
def insertKey (kvs : List (List Char × JValue)) (k : List Char) (v : JValue) :
    List (List Char × JValue) :=
  match kvs with
  | [] => [(k, v)]
  | (k2, w) :: rest => if k2 = k then (k2, v) :: rest else (k2, w) :: insertKey rest k v

/-- JSON whitespace accepted by `json.loads` between tokens. -/
def isJsonWs (c : Char) : Bool :=
  c == ' ' || c == '\t' || c == '\n' || c == '\x0d'

/-- Skip JSON whitespace. -/
def skipWs : List Char → List Char
  | [] => []
  | c :: rest => if isJsonWs c then skipWs rest else c :: rest

/-- Hex digit value, for `\u` escapes. -/
def hexVal (c : Char) : Option Nat :=
  if '0' ≤ c ∧ c ≤ '9' then some (c.toNat - '0'.toNat)
  else if 'a' ≤ c ∧ c ≤ 'f' then some (c.toNat - 'a'.toNat + 10)
  else if 'A' ≤ c ∧ c ≤ 'F' then some (c.toNat - 'A'.toNat + 10)
  else none

/-- Parse the four hex digits of a `\u` escape. -/
def parseHex4 : List Char → Option (Nat × List Char)
  | c1 :: c2 :: c3 :: c4 :: rest =>
    match hexVal c1, hexVal c2, hexVal c3, hexVal c4 with
    | some h1, some h2, some h3, some h4 =>
      some (((h1 * 16 + h2) * 16 + h3) * 16 + h4, rest)
    | _, _, _, _ => none
  | _ => none

/-- Parse a JSON string body after the opening quote.  Standard escapes and
`\uXXXX` (with surrogate-pair combination) are supported; raw control
characters are rejected as in strict `json.loads`.  Lone surrogates, which
Python would accept, are not representable as `Char` and yield `none`.
Each recursion step consumes at least one character, so the fuel
`length + 1` supplied at the call sites never runs out. -/
def parseStringBody : Nat → List Char → Option (List Char × List Char)
  | 0, _ => none
  | _ + 1, [] => none
  | fuel + 1, c :: rest =>
    if c = '"' then some ([], rest)
    else if c = '\\' then
      match rest with
      | [] => none
      | e :: rest2 =>
        if e = '"' then (parseStringBody fuel rest2).map (fun p => ('"' :: p.1, p.2))
        else if e = '\\' then (parseStringBody fuel rest2).map (fun p => ('\\' :: p.1, p.2))
        else if e = '/' then (parseStringBody fuel rest2).map (fun p => ('/' :: p.1, p.2))
        else if e = 'b' then (parseStringBody fuel rest2).map (fun p => ('\x08' :: p.1, p.2))
        else if e = 'f' then (parseStringBody fuel rest2).map (fun p => ('\x0c' :: p.1, p.2))
        else if e = 'n' then (parseStringBody fuel rest2).map (fun p => ('\n' :: p.1, p.2))
        else if e = 'r' then (parseStringBody fuel rest2).map (fun p => ('\x0d' :: p.1, p.2))
        else if e = 't' then (parseStringBody fuel rest2).map (fun p => ('\t' :: p.1, p.2))
        else if e = 'u' then
          match parseHex4 rest2 with
          | none => none
          | some (h, rest3) =>
            if h < 0xD800 ∨ 0xDFFF < h then
              (parseStringBody fuel rest3).map (fun p => (Char.ofNat h :: p.1, p.2))
            else if h < 0xDC00 then
              match rest3 with
              | a :: b :: rest4 =>
                if a = '\\' ∧ b = 'u' then
                  match parseHex4 rest4 with
                  | some (l, rest5) =>
                    if 0xDC00 ≤ l ∧ l ≤ 0xDFFF then
                      (parseStringBody fuel rest5).map (fun p =>
                        (Char.ofNat (0x10000 + (h - 0xD800) * 0x400 + (l - 0xDC00)) :: p.1, p.2))
                    else none
                  | none => none
                else none
              | _ => none
            else none
        else none
    else if 0x20 ≤ c.toNat then (parseStringBody fuel rest).map (fun p => (c :: p.1, p.2))
    else none

/-- Take a maximal run of decimal digits. -/
def takeDigits : List Char → (List Char × List Char)
  | [] => ([], [])
  | c :: rest =>
    if '0' ≤ c ∧ c ≤ '9' then
      let p := takeDigits rest
      (c :: p.1, p.2)
    else ([], c :: rest)

/-- Digits to a natural number (most significant first). -/
def digitsToNat (acc : Nat) : List Char → Nat
  | [] => acc
  | c :: rest => digitsToNat (acc * 10 + (c.toNat - '0'.toNat)) rest

/-- Parse a JSON integer literal: optional minus, then `0` or a nonzero
digit followed by digits (leading zeros rejected as in JSON). -/
def parseIntLit (s : List Char) : Option (Int × List Char) :=
  let (neg, s1) := match s with
    | c :: rest => if c = '-' then (true, rest) else (false, c :: rest)
    | [] => (false, ([] : List Char))
  match takeDigits s1 with
  | ([], _) => none
  | (d :: ds, rest) =>
    if d = '0' ∧ ds ≠ [] then none
    else
      let n : Int := Int.ofNat (digitsToNat 0 (d :: ds))
      some (if neg then -n else n, rest)

/-- Recognize the tail of a literal token (`rue` after `t`, `alse` after
`f`, `ull` after `n`), returning the given value and the remaining input. -/
def parseLit (word : List Char) (v : JValue) (rest : List Char) :
    Option (JValue × List Char) :=
  if word.isPrefixOf rest then some (v, rest.drop word.length) else none

/-- Count of non-whitespace characters, the fuel measure of `jsonLoads`. -/
def jsonMeat (s : List Char) : Nat := (s.filter (fun c => ! isJsonWs c)).length

mutual

/-- Parse one JSON value; `parseListRest` and `parseObjRest` consume the
remaining elements of an array / members of an object after the first.
Fuel decreases on every recursive call, and every recursive call first
consumes at least one non-whitespace character (whitespace is consumed by
the fuel-free `skipWs`, string bodies by the separately-fuelled
`parseStringBody`), so `2 * jsonMeat s + 4` fuel (see `jsonLoads`) is
always enough. -/
def parseValue : Nat → List Char → Option (JValue × List Char)
  | 0, _ => none
  | _ + 1, [] => none
  | fuel + 1, c :: rest =>
    if c = '"' then
      (parseStringBody (rest.length + 1) rest).map (fun p => (JValue.str p.1, p.2))
    else if c = '[' then
      match skipWs rest with
      | [] => (parseListRest fuel []).map (fun p => (JValue.arr p.1, p.2))
      | d :: rest2 =>
        if d = ']' then some (JValue.arr [], rest2)
        else (parseListRest fuel (d :: rest2)).map (fun p => (JValue.arr p.1, p.2))
    else if c = '{' then
      match skipWs rest with
      | [] => (parseObjRest fuel [] []).map (fun p => (JValue.obj p.1, p.2))
      | d :: rest2 =>
        if d = '}' then some (JValue.obj [], rest2)
        else (parseObjRest fuel [] (d :: rest2)).map (fun p => (JValue.obj p.1, p.2))
    else if c = 't' then parseLit (pstr "rue") (JValue.bool true) rest
    else if c = 'f' then parseLit (pstr "alse") (JValue.bool false) rest
    else if c = 'n' then parseLit (pstr "ull") JValue.null rest
    else
      (parseIntLit (c :: rest)).map (fun p => (JValue.num p.1, p.2))

/-- Parse array elements (at a position where a value is expected). -/
def parseListRest : Nat → List Char → Option (List JValue × List Char)
  | 0, _ => none
  | fuel + 1, s =>
    match parseValue fuel (skipWs s) with
    | none => none
    | some (v, r) =>
      match skipWs r with
      | [] => none
      | d :: r2 =>
        if d = ',' then (parseListRest fuel r2).map (fun p => (v :: p.1, p.2))
        else if d = ']' then some ([v], r2)
        else none

/-- Parse object members (at a position where a `"key": value` is expected),
accumulating with `dict` insertion semantics. -/
def parseObjRest : Nat → List (List Char × JValue) → List Char →
    Option (List (List Char × JValue) × List Char)
  | 0, _, _ => none
  | fuel + 1, acc, s =>
    match skipWs s with
    | [] => none
    | d :: r =>
      if d = '"' then
        match parseStringBody (r.length + 1) r with
        | none => none
        | some (k, r2) =>
          match skipWs r2 with
          | [] => none
          | d2 :: r3 =>
            if d2 = ':' then
              match parseValue fuel (skipWs r3) with
              | none => none
              | some (v, r4) =>
                let acc2 := insertKey acc k v
                match skipWs r4 with
                | [] => none
                | d3 :: r5 =>
                  if d3 = ',' then parseObjRest fuel acc2 r5
                  else if d3 = '}' then some (acc2, r5)
                  else none
            else none
      else none
end

/-- Model of Python `json.loads` (app.py line 225 and line 277): parse one
value, allowing surrounding whitespace, and reject trailing data.  The fuel
`2 * jsonMeat s + 4` always suffices, since every fuel-consuming recursive
call first consumes at least one non-whitespace character. -/
def jsonLoads (s : List Char) : Option JValue :=
  match parseValue (2 * jsonMeat s + 4) (skipWs s) with
  | none => none
  | some (v, rest) => if skipWs rest = [] then some v else none

/-- Python type name of a JSON value, as it appears in error messages. -/
def pyTypeName : JValue → List Char
  | .null => pstr "NoneType"
  | .bool _ => pstr "bool"
  | .num _ => pstr "int"
  | .str _ => pstr "str"
  | .arr _ => pstr "list"
  | .obj _ => pstr "dict"

/-- Whether a JSON value is a Python `dict`. -/
def jIsObj : JValue → Bool
  | .obj _ => true
  | _ => false

/-- Python exceptions surfaced by the pipeline.  `keyError` stores the
rendered `str(e)` form (Python renders `KeyError('k')` as `'k'`);
`genericExc` is a plain `Exception(...)`. -/
inductive PyErr where
  | valueError (msg : List Char)
  | keyError (rendered : List Char)
  | typeError (msg : List Char)
  | attributeError (msg : List Char)
  | genericExc (msg : List Char)
  deriving DecidableEq

/-- `str(e)` for the modelled exceptions. -/
def pyErrStr : PyErr → List Char
  | .valueError m => m
  | .keyError r => r
  | .typeError m => m
  | .attributeError m => m
  | .genericExc m => m

/-- Message of `AttributeError: 'ty' object has no attribute 'attr'`. -/
def attrMsg (ty attr : List Char) : List Char :=
  pstr "\x27" ++ ty ++ pstr "\x27 object has no attribute \x27" ++ attr ++ pstr "\x27"

/-- Python `len(v)` on a JSON value: sized containers only. -/
def pyLen : JValue → Except PyErr Nat
  | .str s => .ok s.length
  | .arr xs => .ok xs.length
  | .obj kvs => .ok kvs.length
  | v => .error (.typeError (pstr "object of type \x27" ++ pyTypeName v ++ pstr "\x27 has no len()"))

/-- Python `v[key]` for a string key on a JSON value. -/
def pyIndexStr (v : JValue) (key : List Char) : Except PyErr JValue :=
  match v with
  | .obj kvs =>
    match lookupKey kvs key with
    | some w => .ok w
    | none => .error (.keyError (pstr "\x27" ++ key ++ pstr "\x27"))
  | .arr _ => .error (.typeError (pstr "list indices must be integers or slices, not str"))
  | .str _ => .error (.typeError (pstr "string indices must be integers"))
  | w => .error (.typeError (pstr "\x27" ++ pyTypeName w ++ pstr "\x27 object is not subscriptable"))

/-- Python `v[0]` on a JSON value (only index 0 is used by the pipeline). -/
def pyIndexZero (v : JValue) : Except PyErr JValue :=
  match v with
  | .arr [] => .error (.genericExc (pstr "list index out of range"))
  | .arr (x :: _) => .ok x
  | .str [] => .error (.genericExc (pstr "string index out of range"))
  | .str (c :: _) => .ok (.str [c])
  | .obj _ => .error (.keyError (pstr "0"))
  | w => .error (.typeError (pstr "\x27" ++ pyTypeName w ++ pstr "\x27 object is not subscriptable"))

/-- The fixed mock report returned when `just_log_prompts` is enabled
(app.py lines 86-103), verbatim. -/
def mockResponse : List Char :=
  pstr "# Vulnerability Risk Analysis Report\n\n## Executive Summary\nThis is a mock analysis response for testing purposes. The actual API call was skipped due to \x27just_log_prompts\x27 being enabled in the configuration.\n\n## Analysis Results\n- Total tickets analyzed: [Mock Data]\n- High severity issues: [Mock Data]\n- Medium severity issues: [Mock Data]\n- Low severity issues: [Mock Data]\n\n## Recommendations\n1. Review high-severity vulnerabilities immediately\n2. Implement security patches for critical systems\n3. Conduct regular security assessments\n\n*Note: This is mock data generated for testing purposes.*\n"

/-- Fixed text of the prompt template before the severity document
(app.py lines 237-240). -/
def promptPre : List Char :=
  pstr "You are a cybersecurity expert analyzing vulnerability data. Please analyze the following AttackIQ assessment data using the provided severity classification criteria.\n\nSEVERITY CLASSIFICATION CRITERIA:\n"

/-- Fixed text of the prompt template between the two interpolations
(app.py lines 241-243). -/
def promptMid : List Char :=
  pstr "\n\nATTACKIQ ASSESSMENT DATA:\n"

/-- Fixed text of the prompt template after the dataset
(app.py lines 244-259). -/
def promptPost : List Char :=
  pstr "\n\nPlease provide:\n1. A comprehensive markdown analysis report\n2. For each ticket in the JSON data, add a \"severity_analysis\" object with:\n   - initial_severity: Based on the raw data\n   - adjusted_severity: Your expert assessment\n   - risk_factors: List of factors that increase risk\n   - mitigating_factors: List of factors that reduce risk\n   - confidence_score: Your confidence in the assessment (0-100)\n   - reasoning: Brief explanation of your assessment\n\nReturn your response in the following format:\n1. First, provide the markdown analysis report\n2. Then, provide the enhanced JSON with severity_analysis added to each ticket\n\nSeparate the markdown and JSON sections clearly."

/-- The prompt construction (f-string, app.py lines 237-259): the fixed
template with the severity document and the raw JSON text interpolated. -/
def buildPrompt (severity_content json_content : List Char) : List Char :=
  promptPre ++ severity_content ++ promptMid ++ json_content ++ promptPost

/-- Per-request configuration (`config.json`), with the fields the pipeline
reads.  `Option` marks fields accessed via `config.get` (defaulted) or
`config[...]` (a missing key raises `KeyError`).  Numeric fields are modelled
as integers; their values are never inspected by the modelled logic. -/
structure Config where
  just_log_prompts : Bool := false
  debug_logging : Bool := false
  abacus_api_key : Option (List Char) := none
  abacus_api_url : Option (List Char) := none
  model : Option (List Char) := none
  max_tokens : Option Nat := none
  temperature : Option Int := none
  timeout : Option Nat := none

/-- Oracle for the single `requests.post` round trip: either a transport
failure (connection error / timeout, i.e. `requests.exceptions.RequestException`)
or an HTTP response with a status code and a body. -/
inductive NetOutcome where
  | transportError (detail : List Char)
  | response (status : Nat) (body : List Char)

/-- Representative detail text of a `json.JSONDecodeError` (the pipeline only
interpolates `str(e)`, never inspects it; position information is omitted). -/
def jsonDecodeDetail : List Char := pstr "Expecting value"

/-- Representative `str(e)` of the `requests.HTTPError` raised by
`raise_for_status()` on a 4xx/5xx response. -/
def httpStatusDetail : List Char := pstr "HTTP error for url"

/-- The distinct message raised when a well-formed API response lacks a
non-empty `choices` (app.py line 158). -/
def unexpectedFormatMsg : List Char := pstr "Unexpected API response format"

/-- Extraction of `result['choices'][0]['message']['content']` guarded by
`if 'choices' in result and len(result['choices']) > 0` (app.py lines
152-161), with Python's evaluation order and failure modes: a missing or
empty `choices` raises the `ValueError` above, every other shape failure
raises the corresponding `TypeError`/`KeyError`/`IndexError`. -/
def extractContent (result : JValue) : Except PyErr JValue :=
  let containsChoices : Except PyErr Bool :=
    match result with
    | .obj kvs => .ok (lookupKey kvs (pstr "choices")).isSome
    | .arr xs => .ok (xs.any (fun x =>
        match x with
        | .str s => s = pstr "choices"
        | _ => false))
    | .str s => .ok (containsSub (pstr "choices") s)
    | v => .error (.typeError (pstr "argument of type \x27" ++ pyTypeName v ++ pstr "\x27 is not iterable"))
  match containsChoices with
  | .error e => .error e
  | .ok false => .error (.valueError unexpectedFormatMsg)
  | .ok true =>
    match pyIndexStr result (pstr "choices") with
    | .error e => .error e
    | .ok choicesVal =>
      match pyLen choicesVal with
      | .error e => .error e
      | .ok n =>
        if n > 0 then
          match pyIndexZero choicesVal with
          | .error e => .error e
          | .ok c0 =>
            match pyIndexStr c0 (pstr "message") with
            | .error e => .error e
            | .ok m => pyIndexStr m (pstr "content")
        else .error (.valueError unexpectedFormatMsg)

/-- Specification-side lookup of the `choices[0].message.content` path:
`some` exactly when the parsed response is an object whose `choices` is a
non-empty array whose first element is an object with an object `message`
carrying a `content` entry. -/
def contentPath (result : JValue) : Option JValue :=
  match result with
  | .obj kvs =>
    match lookupKey kvs (pstr "choices") with
    | some (.arr (c0 :: _)) =>
      match c0 with
      | .obj m =>
        match lookupKey m (pstr "message") with
        | some (.obj mm) => lookupKey mm (pstr "content")
        | _ => none
      | _ => none
    | _ => none
  | _ => none

/-- The API client (app.py lines 71-172).  Returns the extracted content
value (or the raised exception) together with a flag recording whether the
network branch was reached (`false` exactly when no `requests.post` happens).
In mock mode (`just_log_prompts`) it returns the fixed `mockResponse`
immediately.  `RequestException` and `json.JSONDecodeError` are re-raised as
plain `Exception`s with the prefixes from lines 163-172; extraction errors
propagate unchanged (they match none of the `except` clauses). -/
def call_abacus_api (cfg : Config) (prompt : List Char) (net : NetOutcome) :
    Except PyErr JValue × Bool :=
  if cfg.just_log_prompts then (.ok (.str mockResponse), false)
  else
    match cfg.abacus_api_key with
    | none => (.error (.keyError (pstr "\x27abacus_api_key\x27")), false)
    | some _ =>
      match cfg.abacus_api_url with
      | none => (.error (.keyError (pstr "\x27abacus_api_url\x27")), false)
      | some _ =>
        match net with
        | .transportError detail =>
          (.error (.genericExc (pstr "API request failed: " ++ detail)), true)
        | .response status body =>
          if 400 ≤ status then
            (.error (.genericExc (pstr "API request failed: " ++ httpStatusDetail)), true)
          else
            match jsonLoads body with
            | none =>
              (.error (.genericExc (pstr "Failed to parse API response: " ++ jsonDecodeDetail)), true)
            | some result =>
              match extractContent result with
              | .error e => (.error e, true)
              | .ok v => (.ok v, true)

/-- The response splitter (app.py lines 272-282):
`parts = analysis_result.split('```json')`; when a marker exists, the report
is `parts[0].strip()` and the candidate JSON text is
`parts[1].split('```')[0].strip()`, parsed with fallback to the original
dataset; otherwise the whole response is the report and the dataset is kept. -/
def responseSplit (analysis_result : List Char) (json_data : JValue) :
    List Char × JValue :=
  let parts := pySplit (pstr "```json") analysis_result
  if parts.length > 1 then
    let markdown_part := pyStrip (parts.getD 0 [])
    let json_part := pyStrip ((pySplit (pstr "```") (parts.getD 1 [])).getD 0 [])
    match jsonLoads json_part with
    | some enhanced => (markdown_part, enhanced)
    | none => (markdown_part, json_data)
  else (analysis_result, json_data)

/-- Result record of the `/analyze` operation.  A `failure` is the
`{'success': False, 'error': ...}` response (app.py lines 234, 315-320): it
carries no artifact handles.  A `success` is the record of lines 302-313;
its artifact contents (`markdownArtifact` and `modifiedJson`) stand for the
two persisted temporary files whose handles the response exposes. -/
inductive AnalyzeResult where
  | failure (error : List Char)
  | success (ticketsAnalyzed : Nat) (modelUsed : List Char) (promptOnly : Bool)
      (analysisPreview : List Char) (analysis : List Char) (modifiedJson : JValue)
      (markdownArtifact : List Char)

/-- `success` flag of a result. -/
def resultSuccess : AnalyzeResult → Bool
  | .success .. => true
  | .failure _ => false

/-- `tickets_analyzed` of a successful result (0 on failure). -/
def resultTickets : AnalyzeResult → Nat
  | .success n _ _ _ _ _ _ => n
  | .failure _ => 0

/-- `analysis_preview` of a successful result. -/
def resultPreview : AnalyzeResult → List Char
  | .success _ _ _ p _ _ _ => p
  | .failure _ => []

/-- `error` message of a failed result. -/
def resultError : AnalyzeResult → List Char
  | .failure e => e
  | .success .. => []

/-- `modified_json` of a successful result (`null` on failure). -/
def resultModifiedJson : AnalyzeResult → JValue
  | .success _ _ _ _ _ j _ => j
  | .failure _ => .null

/-- The `'tickets' in json_data` test of app.py line 228, with Python `in`
semantics per type: key test for a `dict`, element equality for a `list`,
substring for a `str`, `TypeError` otherwise. -/
def ticketsMembership : JValue → Except PyErr Bool
  | .obj kvs => .ok (lookupKey kvs (pstr "tickets")).isSome
  | .arr xs => .ok (xs.any (fun x =>
      match x with
      | .str s => s = pstr "tickets"
      | _ => false))
  | .str s => .ok (containsSub (pstr "tickets") s)
  | v => .error (.typeError (pstr "argument of type \x27" ++ pyTypeName v ++ pstr "\x27 is not iterable"))

/-- `len(json_data.get('tickets', []))` of app.py line 306. -/
def ticketsCount : JValue → Except PyErr Nat
  | .obj kvs =>
    match lookupKey kvs (pstr "tickets") with
    | some v => pyLen v
    | none => .ok 0
  | v => .error (.attributeError (attrMsg (pyTypeName v) (pstr "get")))

/-- `analysis_result[:500] + '...' if len(analysis_result) > 500 else
analysis_result` (app.py line 309). -/
def analysisPreviewOf (analysis_result : List Char) : List Char :=
  if analysis_result.length > 500 then analysis_result.take 500 ++ pstr "..."
  else analysis_result

/-- The pipeline from after `json.loads` succeeds to the response
(app.py lines 226-313), with the request-level `try/except` factored out:
an `.error` is a Python exception reaching the handler of line 315.  The
`Bool` records whether `call_abacus_api` was invoked at all (the client's
own `Bool` separately records whether the network was reached).
Faithfully modelled
hazards: line 227 calls `json_data.keys()` (only under `if logger:`), and
line 229 calls `logger.info(...)` UNGUARDED whenever `'tickets' in
json_data` — an `AttributeError` on `None` when logging is disabled. -/
def analyzeAfterParse (cfg : Config) (severity_content json_content : List Char)
    (json_data : JValue) (net : NetOutcome) : Except PyErr AnalyzeResult × Bool :=
  let hasLogger := cfg.debug_logging
  if hasLogger ∧ ¬ jIsObj json_data then
    (.error (.attributeError (attrMsg (pyTypeName json_data) (pstr "keys"))), false)
  else
    match ticketsMembership json_data with
    | .error e => (.error e, false)
    | .ok inTickets =>
      let step229 : Except PyErr Unit :=
        if inTickets then
          if hasLogger then
            match pyIndexStr json_data (pstr "tickets") with
            | .error e => .error e
            | .ok v =>
              match pyLen v with
              | .error e => .error e
              | .ok _ => .ok ()
          else .error (.attributeError (attrMsg (pstr "NoneType") (pstr "info")))
        else .ok ()
      match step229 with
      | .error e => (.error e, false)
      | .ok _ =>
        let prompt := buildPrompt severity_content json_content
        match call_abacus_api cfg prompt net with
        | (.error e, _) => (.error e, true)
        | (.ok contentVal, _) =>
          match contentVal with
          | .str analysis_result =>
            let md_enh := responseSplit analysis_result json_data
            match ticketsCount json_data with
            | .error e => (.error e, true)
            | .ok n =>
              (.ok (.success n (cfg.model.getD (pstr "claude-sonnet-4"))
                cfg.just_log_prompts (analysisPreviewOf analysis_result)
                analysis_result md_enh.2 md_enh.1), true)
          | other =>
            (.error (.attributeError (attrMsg (pyTypeName other) (pstr "split"))), true)

/-- The `/analyze` handler (app.py lines 178-320) on decoded request content:
read both uploads through `read_file_with_encoding`, parse the dataset
(returning the `Invalid JSON file` response of line 234 on parse failure),
then run `analyzeAfterParse`, rendering any Python exception as the
`Analysis failed: ...` response of line 320.  The `Bool` records whether
`call_abacus_api` was invoked. -/
def analyze (cfg : Config) (severityBytes jsonBytes : List Nat) (net : NetOutcome) :
    AnalyzeResult × Bool :=
  match read_file_with_encoding severityBytes with
  | .error e => (.failure (pstr "Analysis failed: " ++ e), false)
  | .ok sevc =>
    match read_file_with_encoding jsonBytes with
    | .error e => (.failure (pstr "Analysis failed: " ++ e), false)
    | .ok jsonc =>
      match jsonLoads jsonc.1 with
      | none => (.failure (pstr "Invalid JSON file: " ++ jsonDecodeDetail), false)
      | some json_data =>
        match analyzeAfterParse cfg sevc.1 jsonc.1 json_data net with
        | (.error e, called) => (.failure (pstr "Analysis failed: " ++ pyErrStr e), called)
        | (.ok r, called) => (r, called)

/-- Mock-mode configuration with debug logging enabled (scenario inputs). -/
def cfgMockLog : Config := { just_log_prompts := true, debug_logging := true }

/-- Mock-mode configuration with debug logging disabled. -/
def cfgMockNoLog : Config := { just_log_prompts := true, debug_logging := false }

/-- An arbitrary network oracle (irrelevant in mock mode). -/
def net0 : NetOutcome := .transportError []

/-- Severity document of end-to-end scenario 1. -/
def sevScenario1 : List Char := pstr "Critical: CVSS>=9"

/-- Ticket dataset of end-to-end scenario 1. -/
def dataScenario1 : List Char := pstr "\x7b\"tickets\":[\x7b\"id\":1\x7d]\x7d"


theorem utf8DecodeOne_shrink (s : List Nat) (c : Char) (rest : List Nat)
    (h : utf8DecodeOne s = some (c, rest)) : rest.length < s.length := by
  match s with
  | [] => simp [utf8DecodeOne] at h
  | b :: bs =>
    simp only [utf8DecodeOne] at h
    repeat' split at h
    all_goals try simp_all
    all_goals (rw [← h.2]; omega)

theorem utf8DecodeGo_fuel (f1 : Nat) : ∀ (f2 : Nat) (s : List Nat),
    s.length ≤ f1 → s.length ≤ f2 → utf8DecodeGo f1 s = utf8DecodeGo f2 s := by
  induction f1 with
  | zero =>
    intro f2 s h1 _
    have : s = [] := by
      cases s with
      | nil => rfl
      | cons a t => simp at h1
    subst this
    cases f2 <;> rfl
  | succ f ih =>
    intro f2 s h1 h2
    cases s with
    | nil => cases f2 <;> rfl
    | cons b bs =>
      have h2p : ∃ g, f2 = g + 1 := by
        cases f2 with
        | zero => simp at h2
        | succ g => exact ⟨g, rfl⟩
      obtain ⟨g, rfl⟩ := h2p
      show (match utf8DecodeOne (b :: bs) with
        | none => none
        | some (c, rest) => (utf8DecodeGo f rest).map (fun t => c :: t)) =
        (match utf8DecodeOne (b :: bs) with
        | none => none
        | some (c, rest) => (utf8DecodeGo g rest).map (fun t => c :: t))
      match hone : utf8DecodeOne (b :: bs) with
      | none => rfl
      | some (c, rest) =>
        have hlen := utf8DecodeOne_shrink _ _ _ hone
        simp only []
        rw [ih g rest (by simp at hlen h1 ⊢; omega) (by simp at hlen h2 ⊢; omega)]

theorem utf8DecodeOne_encodeChar (c : Char) (bs : List Nat) :
    utf8DecodeOne (utf8EncodeChar c ++ bs) = some (c, bs) := by
  have hv : c.toNat < 0xD800 ∨ (0xDFFF < c.toNat ∧ c.toNat < 0x110000) := c.valid
  by_cases h1 : c.toNat < 0x80
  · have he : utf8EncodeChar c = [c.toNat] := by simp [utf8EncodeChar, h1]
    rw [he]
    simp only [List.singleton_append, utf8DecodeOne]
    rw [if_pos h1, Char.ofNat_toNat]
  · by_cases h2 : c.toNat < 0x800
    · have he : utf8EncodeChar c = [0xC0 + c.toNat / 0x40, 0x80 + c.toNat % 0x40] := by
        simp [utf8EncodeChar, h1, h2]
      rw [he]
      simp only [List.cons_append, List.nil_append, utf8DecodeOne]
      rw [if_neg (by omega), if_neg (by omega), if_pos (by omega),
        if_pos (by omega : (0x80:Nat) ≤ 0x80 + c.toNat % 0x40 ∧ 0x80 + c.toNat % 0x40 < 0xC0)]
      have harg : (0xC0 + c.toNat / 0x40 - 0xC0) * 0x40 + (0x80 + c.toNat % 0x40 - 0x80)
          = c.toNat := by omega
      rw [harg, Char.ofNat_toNat]
    · by_cases h3 : c.toNat < 0x10000
      · have he : utf8EncodeChar c = [0xE0 + c.toNat / 0x1000,
            0x80 + (c.toNat / 0x40) % 0x40, 0x80 + c.toNat % 0x40] := by
          simp [utf8EncodeChar, h1, h2, h3]
        rw [he]
        simp only [List.cons_append, List.nil_append, utf8DecodeOne]
        rw [if_neg (by omega), if_neg (by omega), if_neg (by omega), if_pos (by omega)]
        have hcond : ((if (0xE0 + c.toNat / 0x1000 : Nat) = 0xE0 then (0xA0:Nat) else 0x80)
              ≤ 0x80 + (c.toNat / 0x40) % 0x40 ∧
            0x80 + (c.toNat / 0x40) % 0x40 <
              (if (0xE0 + c.toNat / 0x1000 : Nat) = 0xED then (0xA0:Nat) else 0xC0)) ∧
            (0x80:Nat) ≤ 0x80 + c.toNat % 0x40 ∧ 0x80 + c.toNat % 0x40 < 0xC0 := by
          refine ⟨⟨?_, ?_⟩, by omega, by omega⟩
          · split
            · next hb => omega
            · omega
          · split
            · next hb => rcases hv with hv | hv <;> omega
            · omega
        rw [if_pos hcond]
        have harg : (0xE0 + c.toNat / 0x1000 - 0xE0) * 0x1000 +
            (0x80 + (c.toNat / 0x40) % 0x40 - 0x80) * 0x40 +
            (0x80 + c.toNat % 0x40 - 0x80) = c.toNat := by omega
        rw [harg, Char.ofNat_toNat]
      · have h4 : c.toNat < 0x110000 := by rcases hv with hv | hv <;> omega
        have he : utf8EncodeChar c = [0xF0 + c.toNat / 0x40000,
            0x80 + (c.toNat / 0x1000) % 0x40, 0x80 + (c.toNat / 0x40) % 0x40,
            0x80 + c.toNat % 0x40] := by
          simp [utf8EncodeChar, h1, h2, h3]
        rw [he]
        simp only [List.cons_append, List.nil_append, utf8DecodeOne]
        rw [if_neg (by omega), if_neg (by omega), if_neg (by omega), if_neg (by omega),
          if_pos (by omega)]
        have hcond : ((if (0xF0 + c.toNat / 0x40000 : Nat) = 0xF0 then (0x90:Nat) else 0x80)
              ≤ 0x80 + (c.toNat / 0x1000) % 0x40 ∧
            0x80 + (c.toNat / 0x1000) % 0x40 <
              (if (0xF0 + c.toNat / 0x40000 : Nat) = 0xF4 then (0x90:Nat) else 0xC0)) ∧
            ((0x80:Nat) ≤ 0x80 + (c.toNat / 0x40) % 0x40 ∧
              0x80 + (c.toNat / 0x40) % 0x40 < 0xC0) ∧
            (0x80:Nat) ≤ 0x80 + c.toNat % 0x40 ∧ 0x80 + c.toNat % 0x40 < 0xC0 := by
          refine ⟨⟨?_, ?_⟩, ⟨by omega, by omega⟩, by omega, by omega⟩
          · split
            · next hb => omega
            · omega
          · split
            · next hb => omega
            · omega
        rw [if_pos hcond]
        have harg : (0xF0 + c.toNat / 0x40000 - 0xF0) * 0x40000 +
            (0x80 + (c.toNat / 0x1000) % 0x40 - 0x80) * 0x1000 +
            (0x80 + (c.toNat / 0x40) % 0x40 - 0x80) * 0x40 +
            (0x80 + c.toNat % 0x40 - 0x80) = c.toNat := by
          omega
        rw [harg, Char.ofNat_toNat]

theorem utf8EncodeChar_ne_nil (c : Char) : utf8EncodeChar c ≠ [] := by
  simp only [utf8EncodeChar]
  split_ifs <;> simp

theorem utf8Decode_encodeChar_append (c : Char) (bs : List Nat) :
    utf8Decode (utf8EncodeChar c ++ bs) = (utf8Decode bs).map (fun t => c :: t) := by
  have hne := utf8EncodeChar_ne_nil c
  match he : utf8EncodeChar c with
  | [] => exact absurd he hne
  | x :: xs =>
    have hone : utf8DecodeOne (x :: (xs ++ bs)) = some (c, bs) := by
      have h0 := utf8DecodeOne_encodeChar c bs
      rw [he] at h0
      simpa using h0
    rw [utf8Decode]
    simp only [List.cons_append, List.length_cons]
    rw [utf8DecodeGo, hone]
    simp only []
    rw [utf8DecodeGo_fuel ((xs ++ bs).length) bs.length bs (by simp) (by omega)]
    rfl

theorem utf8_decode_encode (t : List Char) : utf8Decode (utf8Encode t) = some t := by
  induction t with
  | nil => rfl
  | cons c t ih =>
    show utf8Decode (utf8EncodeChar c ++ utf8Encode t) = _
    rw [utf8Decode_encodeChar_append, ih]
    rfl

theorem mapOption_inverse {f : α → Option β} {g : β → Option α}
    (hfg : ∀ a b, f a = some b → g b = some a) :
    ∀ (t : List α) (bs : List β), mapOption f t = some bs → mapOption g bs = some t := by
  intro t
  induction t with
  | nil =>
    intro bs h
    simp [mapOption] at h
    subst h
    rfl
  | cons a t ih =>
    intro bs h
    simp only [mapOption] at h
    match hfa : f a with
    | none => rw [hfa] at h; simp at h
    | some b =>
      rw [hfa] at h
      match hmo : mapOption f t with
      | none => rw [hmo] at h; simp at h
      | some u =>
        rw [hmo] at h
        simp at h
        subst h
        simp only [mapOption]
        rw [hfg a b hfa, ih u hmo]
        rfl

theorem cp1252EncodeChar_decodeByte (c : Char) (b : Nat)
    (h : cp1252EncodeChar c = some b) : cp1252DecodeByte b = some c := by
  unfold cp1252EncodeChar at h
  have hp := List.find?_some h
  simp at hp
  exact hp

theorem cp1252_decode_encode (t : List Char) (bs : List Nat)
    (h : cp1252Encode t = some bs) : cp1252Decode bs = some t :=
  mapOption_inverse cp1252EncodeChar_decodeByte t bs h

theorem latin1EncodeChar_decodeByte (c : Char) (b : Nat)
    (h : latin1EncodeChar c = some b) : latin1DecodeByte b = some c := by
  simp only [latin1EncodeChar] at h
  split at h
  · next hc =>
    simp at h
    subst h
    simp [latin1DecodeByte, hc, Char.ofNat_toNat]
  · simp at h

theorem latin1_decode_encode (t : List Char) (bs : List Nat)
    (h : latin1Encode t = some bs) : latin1Decode bs = some t :=
  mapOption_inverse latin1EncodeChar_decodeByte t bs h

theorem latin1Decode_total (bs : List Nat) (h : ∀ b ∈ bs, b < 0x100) :
    ∃ t, latin1Decode bs = some t := by
  induction bs with
  | nil => exact ⟨[], rfl⟩
  | cons b bs ih =>
    obtain ⟨t, ht⟩ := ih (fun x hx => h x (by simp [hx]))
    refine ⟨Char.ofNat b :: t, ?_⟩
    simp only [latin1Decode, mapOption, latin1DecodeByte]
    rw [if_pos (h b (by simp))]
    show (latin1Decode bs).map _ = _
    rw [ht]
    rfl

theorem reader_utf8Encode (t : List Char) :
    read_file_with_encoding (utf8Encode t)
      = .ok (pyUniversalNewlines t, pstr "utf-8") := by
  unfold read_file_with_encoding
  rw [utf8_decode_encode]

/-- C5, counterexample: the text consisting of the two characters
`U+00C3, U+00A9` is encodable in Windows-1252 (as bytes `C3 A9`), but those
bytes are also valid UTF-8 for the single character `U+00E9`, so the reader
returns a different text under the wrong encoding name instead of the
original text with `windows-1252`. -/
theorem c5_counterexample :
    cp1252Encode [Char.ofNat 0xC3, Char.ofNat 0xA9] = some [0xC3, 0xA9]
    ∧ read_file_with_encoding [0xC3, 0xA9] = .ok ([Char.ofNat 0xE9], pstr "utf-8")
    ∧ [Char.ofNat 0xE9] ≠ [Char.ofNat 0xC3, Char.ofNat 0xA9]
    ∧ pstr "utf-8" ≠ pstr "windows-1252" :=
  ⟨by decide, by rfl, by decide, by decide⟩

/-- C5 (amended): content encoded in UTF-8 is always recovered — as the
original text after the universal-newline translation of text-mode reading
(`\r\n` and `\r` become `\n`) — under the correct encoding name;
Windows-1252 / Latin-1 content is likewise recovered (modulo the same
newline translation) with the correct name provided no earlier candidate
encoding in the list accepts its bytes.  Texts without carriage returns are
recovered exactly, since the translation fixes them. -/
theorem c5_amended_reader_recovery :
    (∀ t : List Char, read_file_with_encoding (utf8Encode t)
        = .ok (pyUniversalNewlines t, pstr "utf-8"))
    ∧ (∀ t bs, cp1252Encode t = some bs → utf8Decode bs = none →
        read_file_with_encoding bs = .ok (pyUniversalNewlines t, pstr "windows-1252"))
    ∧ (∀ t bs, latin1Encode t = some bs → utf8Decode bs = none →
        cp1252Decode bs = none →
        read_file_with_encoding bs = .ok (pyUniversalNewlines t, pstr "latin-1"))
    ∧ (∀ t : List Char, '\x0d' ∉ t → pyUniversalNewlines t = t) := by
  refine ⟨reader_utf8Encode, ?_, ?_, ?_⟩
  · intro t bs henc hu
    unfold read_file_with_encoding
    rw [hu, cp1252_decode_encode t bs henc]
  · intro t bs henc hu hc
    unfold read_file_with_encoding
    rw [hu, hc, latin1_decode_encode t bs henc]
  · intro t hcr
    induction t with
    | nil => rfl
    | cons c v ih =>
      have hc : c ≠ '\x0d' := by
        intro h
        exact hcr (by simp [h])
      have hv : pyUNLGo false v = v := ih (fun h => hcr (by simp [h]))
      show pyUNLGo false (c :: v) = c :: v
      by_cases hn : c = '\n'
      · subst hn
        rw [pyUNLGo, if_pos rfl, if_neg (by decide), hv]
      · rw [pyUNLGo, if_neg hn, if_neg hc, hv]

/-- C5, witness for the amended theorem at concrete inputs: an ASCII text via
UTF-8; `é` (byte `E9`, not valid UTF-8) via Windows-1252; `U+0081`
(undefined in Windows-1252) via Latin-1. -/
theorem c5_amended_reader_recovery_witness :
    read_file_with_encoding (utf8Encode (pstr "ok")) = .ok (pstr "ok", pstr "utf-8")
    ∧ read_file_with_encoding [0xE9] = .ok ([Char.ofNat 0xE9], pstr "windows-1252")
    ∧ read_file_with_encoding [0x81] = .ok ([Char.ofNat 0x81], pstr "latin-1")
    ∧ pyUniversalNewlines (pstr "ok") = pstr "ok" :=
  ⟨c5_amended_reader_recovery.1 (pstr "ok"),
    c5_amended_reader_recovery.2.1 [Char.ofNat 0xE9] [0xE9] (by decide) (by rfl),
    c5_amended_reader_recovery.2.2.1 [Char.ofNat 0x81] [0x81] (by decide) (by rfl) (by rfl),
    c5_amended_reader_recovery.2.2.2 (pstr "ok") (by decide)⟩

/-- C6 (code bug): the reader can fail only when all three candidate
decoders fail (first conjunct, the claim's "only when" half, which for real
bytes never happens — see C10).  But the failure does NOT enumerate the
attempted encodings: the `raise` on app.py line 69 passes one argument to
the five-argument `UnicodeDecodeError` constructor, so the escaping
exception is `TypeError('function takes exactly 5 arguments (1 given)')`,
whose message mentions none of `utf-8`, `windows-1252`, `latin-1` — as the
remaining conjuncts show at the model input `[0x100]` that exercises the
exhausted-encodings branch. -/
theorem c6_failure_only_when_all_encodings_fail :
    (∀ bs : List Nat, exceptOk (read_file_with_encoding bs) = true
      ∨ (utf8Decode bs = none ∧ cp1252Decode bs = none ∧ latin1Decode bs = none))
    ∧ (∀ bs : List Nat, read_file_with_encoding bs = .error brokenRaiseDetail
      ∨ exceptOk (read_file_with_encoding bs) = true)
    ∧ read_file_with_encoding [0x100] = .error brokenRaiseDetail
    ∧ containsSub (pstr "utf-8") brokenRaiseDetail = false
    ∧ containsSub (pstr "windows-1252") brokenRaiseDetail = false
    ∧ containsSub (pstr "latin-1") brokenRaiseDetail = false := by
  refine ⟨?_, ?_, by rfl, by decide, by decide, by decide⟩
  · intro bs
    unfold read_file_with_encoding
    match h1 : utf8Decode bs with
    | some t => left; rfl
    | none =>
      match h2 : cp1252Decode bs with
      | some t => left; rfl
      | none =>
        match h3 : latin1Decode bs with
        | some t => left; rfl
        | none => right; exact ⟨rfl, rfl, rfl⟩
  · intro bs
    unfold read_file_with_encoding
    match h1 : utf8Decode bs with
    | some t => right; rfl
    | none =>
      match h2 : cp1252Decode bs with
      | some t => right; rfl
      | none =>
        match h3 : latin1Decode bs with
        | some t => right; rfl
        | none => left; rfl

/-- C10 (confirmed): on every real byte string (all values below 256) the
reader succeeds — Latin-1, the last candidate, decodes every byte — so the
failure branch after the candidate loop is unreachable. -/
theorem c10_reader_total_on_bytes (bs : List Nat) (h : ∀ b ∈ bs, b < 0x100) :
    exceptOk (read_file_with_encoding bs) = true := by
  obtain ⟨t, ht⟩ := latin1Decode_total bs h
  unfold read_file_with_encoding
  match h1 : utf8Decode bs with
  | some u => rfl
  | none =>
    match h2 : cp1252Decode bs with
    | some u => rfl
    | none => rw [ht]; rfl

/-- C10, witness: the reader succeeds on a concrete byte string that no
earlier codec fully accepts. -/
theorem c10_reader_total_on_bytes_witness :
    (∀ b ∈ [0x00, 0x81, 0xFF], b < 0x100)
    ∧ exceptOk (read_file_with_encoding [0x00, 0x81, 0xFF]) = true :=
  ⟨by decide, c10_reader_total_on_bytes [0x00, 0x81, 0xFF] (by decide)⟩

theorem splitOnce?_nil (pat : List Char) (hp : pat ≠ []) :
    splitOnce? pat [] = none := by
  match pat with
  | [] => exact absurd rfl hp
  | c :: cs => rfl

theorem splitOnce?_length (pat : List Char) (hp : pat ≠ []) :
    ∀ (s a b : List Char), splitOnce? pat s = some (a, b) → b.length < s.length := by
  intro s
  induction s with
  | nil =>
    intro a b h
    rw [splitOnce?_nil pat hp] at h
    exact absurd h (by simp)
  | cons c rest ih =>
    intro a b h
    rw [splitOnce?] at h
    split at h
    · next hpre =>
      have hplen : 1 ≤ pat.length := by
        cases pat with
        | nil => exact absurd rfl hp
        | cons x xs => simp
      simp at h
      rw [← h.2]
      simp
      omega
    · match hrec : splitOnce? pat rest with
      | none => rw [hrec] at h; exact absurd h (by simp)
      | some (a2, b2) =>
        rw [hrec] at h
        simp at h
        have := ih a2 b2 hrec
        rw [← h.2]
        simp
        omega

theorem pySplitGo_of_none (pat s : List Char) (f : Nat)
    (h : splitOnce? pat s = none) : pySplitGo pat f s = [s] := by
  cases f with
  | zero => rfl
  | succ g => rw [pySplitGo, h]

theorem pySplitGo_ne_nil (pat s : List Char) (f : Nat) : pySplitGo pat f s ≠ [] := by
  cases f with
  | zero => simp [pySplitGo]
  | succ g =>
    rw [pySplitGo]
    match h : splitOnce? pat s with
    | none => simp
    | some (a, b) => simp

theorem pySplitGo_getD_zero (pat : List Char) (hp : pat ≠ []) (f : Nat) (s : List Char)
    (hf : s.length ≤ f) :
    (pySplitGo pat f s).getD 0 [] = headSplitOnce pat s := by
  cases f with
  | zero =>
    have hs : s = [] := by
      cases s with
      | nil => rfl
      | cons a t => simp at hf
    subst hs
    rw [headSplitOnce, splitOnce?_nil pat hp]
    rfl
  | succ g =>
    rw [pySplitGo, headSplitOnce]
    match h : splitOnce? pat s with
    | none => rfl
    | some (a, b) => rfl

/-- C3 (amended): characterization of the splitter.  With no JSON fence
marker the whole response is the report and the dataset is unchanged.  With a
marker, the candidate slice is the text after the FIRST marker, cut at the
next marker if one exists, then cut at its first closing fence if one exists
— a closing fence is NOT required: an unclosed fence slice runs to the end of
that segment; the slice is stripped and parsed, the parsed value is used on
success and the original dataset on any parse failure.  The splitter itself
never fails the request. -/
theorem c3_amended_splitter_characterization (text : List Char) (orig : JValue) :
    responseSplit text orig =
      match splitOnce? (pstr "```json") text with
      | none => (text, orig)
      | some (a, b) =>
        (pyStrip a,
          match jsonLoads (pyStrip
            (headSplitOnce (pstr "```") (headSplitOnce (pstr "```json") b))) with
          | some v => v
          | none => orig) := by
  have hp1 : (pstr "```json") ≠ [] := by decide
  have hp2 : (pstr "```") ≠ [] := by decide
  unfold responseSplit pySplit
  match hs : splitOnce? (pstr "```json") text with
  | none =>
    rw [pySplitGo_of_none _ _ _ hs]
    simp
  | some (a, b) =>
    have hlen := splitOnce?_length _ hp1 text a b hs
    obtain ⟨k, hk⟩ : ∃ k, text.length = k + 1 := ⟨text.length - 1, by omega⟩
    rw [hk, pySplitGo, hs]
    have hne := pySplitGo_ne_nil (pstr "```json") b k
    rw [if_pos (by simp [List.length_pos]; exact hne)]
    have hgd1 : (a :: pySplitGo (pstr "```json") k b).getD 0 [] = a := rfl
    have hgd2 : (a :: pySplitGo (pstr "```json") k b).getD 1 [] =
        (pySplitGo (pstr "```json") k b).getD 0 [] := rfl
    rw [hgd1, hgd2, pySplitGo_getD_zero _ hp1 k b (by omega)]
    rw [pySplitGo_getD_zero _ hp2 _ _ (by omega)]
    simp only []
    cases hj : jsonLoads (pyStrip
        (headSplitOnce (pstr "```") (headSplitOnce (pstr "```json") b))) <;>
      simp only [hj]

/-- C3, counterexample: a response whose JSON fence is opened but never
closed — by the claim, a well-formed fence is absent, so the enhanced
dataset should equal the original; the code nevertheless parses the
unterminated slice and returns its value. -/
theorem c3_counterexample :
    (responseSplit (pstr "```json\n\x7b\"a\": 1\x7d")
        (JValue.obj [(pstr "tickets", JValue.arr [])])).2
      = JValue.obj [(pstr "a", JValue.num 1)]
    ∧ (responseSplit (pstr "```json\n\x7b\"a\": 1\x7d")
        (JValue.obj [(pstr "tickets", JValue.arr [])])).2
      ≠ JValue.obj [(pstr "tickets", JValue.arr [])] := by
  refine ⟨by rfl, ?_⟩
  intro h
  rw [show (responseSplit (pstr "```json\n\x7b\"a\": 1\x7d")
      (JValue.obj [(pstr "tickets", JValue.arr [])])).2
      = JValue.obj [(pstr "a", JValue.num 1)] from rfl] at h
  injection h with h1
  injection h1 with h2 h3
  rw [Prod.mk.injEq] at h2
  exact absurd h2.1 (by decide)

theorem splitOnce?_isSome_append (s : List Char) :
    ∀ pre post : List Char, (splitOnce? s (pre ++ (s ++ post))).isSome = true := by
  intro pre
  induction pre with
  | nil =>
    intro post
    cases s with
    | nil =>
      show (splitOnce? [] post).isSome = true
      cases post <;> rfl
    | cons c cs =>
      simp only [List.nil_append, splitOnce?]
      rw [if_pos (by
        simp only [List.isPrefixOf_iff_prefix]
        exact ⟨post, by simp⟩)]
      rfl
  | cons c pre ih =>
    intro post
    simp only [List.cons_append, splitOnce?]
    split
    · rfl
    · have := ih post
      match h : splitOnce? s (pre ++ (s ++ post)) with
      | none => rw [h] at this; simp at this
      | some ab => rfl

theorem containsSub_append (s pre post : List Char) :
    containsSub s (pre ++ (s ++ post)) = true := by
  rw [containsSub, splitOnce?_isSome_append]

/-- C9 (confirmed): the prompt builder is a pure function of the two inputs —
equal inputs give syntactically equal prompts — and both inputs appear
verbatim as substrings of the fixed instruction template's interpolation. -/
theorem c9_prompt_builder_deterministic_verbatim (s d : List Char) :
    containsSub s (buildPrompt s d) = true
    ∧ containsSub d (buildPrompt s d) = true
    ∧ (∀ s2 d2 : List Char, s = s2 → d = d2 → buildPrompt s d = buildPrompt s2 d2) := by
  refine ⟨?_, ?_, ?_⟩
  · rw [buildPrompt]
    have := containsSub_append s promptPre (promptMid ++ d ++ promptPost)
    simpa using this
  · rw [buildPrompt]
    have := containsSub_append d (promptPre ++ s ++ promptMid) promptPost
    simpa using this
  · intro s2 d2 hs hd
    rw [hs, hd]

/-- C9, witness at the concrete inputs of end-to-end scenario 1. -/
theorem c9_prompt_builder_deterministic_verbatim_witness :
    containsSub (pstr "Critical: CVSS>=9")
        (buildPrompt (pstr "Critical: CVSS>=9") (pstr "\x7b\"tickets\":[\x7b\"id\":1\x7d]\x7d")) = true
    ∧ buildPrompt (pstr "Critical: CVSS>=9") (pstr "\x7b\"tickets\":[\x7b\"id\":1\x7d]\x7d")
      = buildPrompt (pstr "Critical: CVSS>=9") (pstr "\x7b\"tickets\":[\x7b\"id\":1\x7d]\x7d") :=
  ⟨(c9_prompt_builder_deterministic_verbatim
      (pstr "Critical: CVSS>=9") (pstr "\x7b\"tickets\":[\x7b\"id\":1\x7d]\x7d")).1,
    (c9_prompt_builder_deterministic_verbatim
      (pstr "Critical: CVSS>=9") (pstr "\x7b\"tickets\":[\x7b\"id\":1\x7d]\x7d")).2.2
      (pstr "Critical: CVSS>=9") (pstr "\x7b\"tickets\":[\x7b\"id\":1\x7d]\x7d") rfl rfl⟩

/-- C4 (confirmed): with `just_log_prompts` enabled the client returns the
fixed mock report with no network activity, for every configuration, prompt,
logger state and network behaviour; the result is independent of
`api_url`, `api_key`, `max_tokens`, `temperature` and the prompt. -/
theorem c4_mock_mode_fixed_and_offline
    (cfg cfg2 : Config) (p p2 : List Char) (net net2 : NetOutcome)
    (h : cfg.just_log_prompts = true) (h2 : cfg2.just_log_prompts = true) :
    call_abacus_api cfg p net = (.ok (.str mockResponse), false)
    ∧ call_abacus_api cfg p net = call_abacus_api cfg2 p2 net2 := by
  unfold call_abacus_api
  rw [if_pos h, if_pos h2]
  exact ⟨rfl, rfl⟩

/-- C4, witness: two mock configurations differing in every API-related
field, with different prompts and network behaviours, give the same fixed
result and no network call. -/
theorem c4_mock_mode_fixed_and_offline_witness :
    call_abacus_api { just_log_prompts := true } (pstr "p1") (.transportError [])
      = (.ok (.str mockResponse), false)
    ∧ call_abacus_api { just_log_prompts := true } (pstr "p1") (.transportError [])
      = call_abacus_api
          { just_log_prompts := true, debug_logging := true,
            abacus_api_key := some (pstr "k"), abacus_api_url := some (pstr "u"),
            model := some (pstr "m"), max_tokens := some 99, temperature := some 2,
            timeout := some 1 }
          (pstr "p2") (.response 200 (pstr "\x7b\x7d")) :=
  c4_mock_mode_fixed_and_offline _ _ _ _ _ _ rfl rfl

theorem extractContent_ok_implies_contentPath (r v : JValue)
    (h : extractContent r = .ok v) : contentPath r = some v := by
  match r with
  | .null => simp [extractContent] at h
  | .bool b => simp [extractContent] at h
  | .num n => simp [extractContent] at h
  | .str s =>
    simp only [extractContent] at h
    split at h <;> simp_all [pyIndexStr]
  | .arr xs =>
    simp only [extractContent] at h
    split at h <;> simp_all [pyIndexStr]
  | .obj kvs =>
    simp only [extractContent, pyIndexStr, pyIndexZero, pyLen] at h
    match hlook : lookupKey kvs (pstr "choices") with
    | none => rw [hlook] at h; simp at h
    | some w =>
      rw [hlook] at h
      simp only [Option.isSome_some] at h
      match w with
      | .null => simp at h
      | .bool b => simp at h
      | .num n => simp at h
      | .str s =>
        cases s with
        | nil => simp at h
        | cons c cs => simp at h
      | .obj kvs2 =>
        cases kvs2 with
        | nil => simp at h
        | cons e rest => simp at h
      | .arr xs =>
        cases xs with
        | nil => simp at h
        | cons c0 rest =>
          simp only [List.length_cons, Nat.succ_pos, if_pos, gt_iff_lt,
            Nat.zero_lt_succ, if_true] at h
          match c0 with
          | .null => simp at h
          | .bool b => simp at h
          | .num n => simp at h
          | .str s => simp at h
          | .arr ys => simp at h
          | .obj m =>
            simp only [] at h
            match hmsg : lookupKey m (pstr "message") with
            | none => rw [hmsg] at h; simp at h
            | some mv =>
              rw [hmsg] at h
              match mv with
              | .null => simp at h
              | .bool b => simp at h
              | .num n => simp at h
              | .str s2 => simp at h
              | .arr ys => simp at h
              | .obj mm =>
                simp only [] at h
                match hcont : lookupKey mm (pstr "content") with
                | none => rw [hcont] at h; simp at h
                | some cv =>
                  rw [hcont] at h
                  simp at h
                  subst h
                  simp [contentPath, hlook, hmsg, hcont]

/-- C8 (amended): a parsed response object lacking the `choices` key, or
mapping it to an empty array, fails with the distinct
`ValueError: Unexpected API response format`; any other response lacking the
`choices[0].message.content` path fails with the corresponding lookup/type
error instead; extraction never defaults — it succeeds only by returning
exactly the value at that path. -/
theorem c8_unexpected_format_distinct_error :
    (∀ kvs, lookupKey kvs (pstr "choices") = none →
      extractContent (.obj kvs) = .error (.valueError unexpectedFormatMsg))
    ∧ (∀ kvs, lookupKey kvs (pstr "choices") = some (.arr []) →
      extractContent (.obj kvs) = .error (.valueError unexpectedFormatMsg))
    ∧ (∀ r v, extractContent r = .ok v → contentPath r = some v) := by
  refine ⟨?_, ?_, extractContent_ok_implies_contentPath⟩
  · intro kvs h
    simp only [extractContent]
    rw [h]
    rfl
  · intro kvs h
    simp only [extractContent, pyIndexStr]
    rw [h]
    rfl

/-- C8, witness for the amended theorem: a response without `choices`, one
with empty `choices`, and a well-formed one whose content is recovered via
the path. -/
theorem c8_unexpected_format_distinct_error_witness :
    extractContent (.obj [(pstr "id", .num 7)])
      = .error (.valueError unexpectedFormatMsg)
    ∧ extractContent (.obj [(pstr "choices", .arr [])])
      = .error (.valueError unexpectedFormatMsg)
    ∧ contentPath (.obj [(pstr "choices", .arr [.obj [(pstr "message",
        .obj [(pstr "content", .str (pstr "hi"))])]])]) = some (.str (pstr "hi")) :=
  ⟨c8_unexpected_format_distinct_error.1 [(pstr "id", .num 7)] (by rfl),
    c8_unexpected_format_distinct_error.2.1 [(pstr "choices", .arr [])] (by rfl),
    c8_unexpected_format_distinct_error.2.2
      (.obj [(pstr "choices", .arr [.obj [(pstr "message",
        .obj [(pstr "content", .str (pstr "hi"))])]])]) (.str (pstr "hi")) (by rfl)⟩

/-- C8, counterexample: the parsed response `{"choices": [{}]}` lacks the
`choices[0].message.content` path but does NOT produce the distinct
`UnexpectedResponseFormat` error — it raises `KeyError('message')`, which the
client does not collapse into `ApiError` and does not default, but it is a
different error kind than the claim states. -/
theorem c8_counterexample :
    extractContent (.obj [(pstr "choices", .arr [.obj []])])
      = .error (.keyError (pstr "\x27message\x27"))
    ∧ (PyErr.keyError (pstr "\x27message\x27") ≠ .valueError unexpectedFormatMsg) :=
  ⟨by rfl, by decide⟩

set_option maxRecDepth 10000 in
/-- C1 (code bug): end-to-end scenario 1 under mock mode.  When debug
logging is also enabled the claimed result holds (success, one ticket,
preview starting with the report title); but with logging disabled —
also a "configuration with mock mode enabled" — the unguarded
`logger.info` on app.py line 229 raises `AttributeError` on `None` and the
request fails, contradicting the scenario. -/
theorem c1_scenario1_mock_mode_logging_bug :
    (analyze cfgMockNoLog (utf8Encode sevScenario1) (utf8Encode dataScenario1) net0).1
      = .failure (pstr "Analysis failed: \x27NoneType\x27 object has no attribute \x27info\x27")
    ∧ resultSuccess
        ((analyze cfgMockLog (utf8Encode sevScenario1) (utf8Encode dataScenario1) net0).1)
      = true
    ∧ resultTickets
        ((analyze cfgMockLog (utf8Encode sevScenario1) (utf8Encode dataScenario1) net0).1)
      = 1
    ∧ (pstr "# Vulnerability Risk Analysis Report").isPrefixOf
        (resultPreview
          ((analyze cfgMockLog (utf8Encode sevScenario1) (utf8Encode dataScenario1) net0).1))
      = true :=
  ⟨by rfl, by rfl, by rfl, by rfl⟩

set_option maxRecDepth 10000 in
/-- C2 (code bug): logging is not purely observational.  On the same request
(mock mode, scenario-1 inputs) the pipeline succeeds when a logging sink is
attached and fails when it is absent, because app.py line 229 calls
`logger.info` outside any `if logger:` guard whenever the dataset contains a
`tickets` key. -/
theorem c2_logging_alters_control_flow :
    resultSuccess
        ((analyze cfgMockLog (utf8Encode sevScenario1) (utf8Encode dataScenario1) net0).1)
      = true
    ∧ resultSuccess
        ((analyze cfgMockNoLog (utf8Encode sevScenario1) (utf8Encode dataScenario1) net0).1)
      = false
    ∧ (analyze cfgMockLog (utf8Encode sevScenario1) (utf8Encode dataScenario1) net0).1
      ≠ (analyze cfgMockNoLog (utf8Encode sevScenario1) (utf8Encode dataScenario1) net0).1 := by
  refine ⟨by rfl, by rfl, ?_⟩
  intro h
  exact absurd (congrArg resultSuccess h) (by decide)

/-- Newline-translation passes over any character other than a carriage return. -/
theorem pyUNLGo_cons (c : Char) (hc : c ≠ '\x0d') (v : List Char) :
    pyUNLGo false (c :: v) = c :: pyUNLGo false v := by
  by_cases hn : c = '\n'
  · subst hn; rw [pyUNLGo, if_pos rfl, if_neg (by decide)]
  · rw [pyUNLGo, if_neg hn, if_neg hc]

/-- Newline-translation turns a carriage return into a line feed and arms the
swallow-next-LF state. -/
theorem pyUNLGo_cr (b : Bool) (v : List Char) :
    pyUNLGo b ('\x0d' :: v) = '\n' :: pyUNLGo true v := by
  rw [pyUNLGo, if_neg (by decide), if_pos rfl]

/-- Newline-translation (from the clear state) yields the empty text only on
the empty text. -/
theorem pyUNLGo_nil_iff (v : List Char) : pyUNLGo false v = [] ↔ v = [] := by
  constructor
  · intro h
    cases v with
    | nil => rfl
    | cons c rest =>
      by_cases hn : c = '\n'
      · subst hn; rw [pyUNLGo, if_pos rfl, if_neg (by decide)] at h; exact absurd h (by simp)
      · by_cases hr : c = '\x0d'
        · subst hr; rw [pyUNLGo_cr] at h; exact absurd h (by simp)
        · rw [pyUNLGo, if_neg hn, if_neg hr] at h; exact absurd h (by simp)
  · intro h; subst h; rfl

/-- Newline-translation passes over a carriage-return-free prefix. -/
theorem pyUNLGo_append (p : List Char) (hp : ∀ c ∈ p, c ≠ '\x0d') (x : List Char) :
    pyUNLGo false (p ++ x) = p ++ pyUNLGo false x := by
  induction p with
  | nil => rfl
  | cons c q ih =>
    have hc : c ≠ '\x0d' := hp c (List.mem_cons_self c q)
    rw [List.cons_append, pyUNLGo_cons c hc,
      ih (fun d hd => hp d (List.mem_cons_of_mem c hd)), List.cons_append]

/-- If a translated text starts with a character other than a line feed, the
original started with that very character. -/
theorem pyUNLGo_cons_inv (c : Char) (x w : List Char) (hc : c ≠ '\n')
    (h : pyUNLGo false x = c :: w) : ∃ v, x = c :: v ∧ w = pyUNLGo false v := by
  cases x with
  | nil => simp [pyUNLGo] at h
  | cons d rest =>
    by_cases hn : d = '\n'
    · subst hn; rw [pyUNLGo, if_pos rfl, if_neg (by decide)] at h
      injection h with h1 h2
      exact absurd h1.symm hc
    · by_cases hr : d = '\x0d'
      · subst hr; rw [pyUNLGo_cr] at h
        injection h with h1 h2
        exact absurd h1.symm hc
      · rw [pyUNLGo, if_neg hn, if_neg hr] at h
        injection h with h1 h2
        exact ⟨rest, by rw [h1], h2.symm⟩

/-- If a translated text starts with a line-feed-free prefix, the original
started with that very prefix. -/
theorem pyUNLGo_append_inv (p : List Char) (hp : ∀ c ∈ p, c ≠ '\n') :
    ∀ x w : List Char, pyUNLGo false x = p ++ w → ∃ v, x = p ++ v ∧ w = pyUNLGo false v := by
  induction p with
  | nil => intro x w h; exact ⟨x, rfl, h.symm⟩
  | cons c q ih =>
    intro x w h
    rw [List.cons_append] at h
    obtain ⟨v1, rfl, hw⟩ := pyUNLGo_cons_inv c _ _ (hp c (List.mem_cons_self c q)) h
    obtain ⟨v2, rfl, hww⟩ := ih (fun d hd => hp d (List.mem_cons_of_mem c hd)) v1 w hw.symm
    exact ⟨v2, rfl, hww⟩

/-- The fuel measure of `jsonLoads` on a cons. -/
theorem jsonMeat_cons (c : Char) (t : List Char) :
    jsonMeat (c :: t) = (if isJsonWs c then 0 else 1) + jsonMeat t := by
  by_cases h : isJsonWs c <;> simp [jsonMeat, List.filter_cons, h] <;> omega

/-- Newline-translation preserves the fuel measure of `jsonLoads`: it only
exchanges and drops whitespace characters. -/
theorem jsonMeat_pyUNLGo (s : List Char) : ∀ b, jsonMeat (pyUNLGo b s) = jsonMeat s := by
  induction s with
  | nil => intro b; rfl
  | cons c rest ih =>
    intro b
    by_cases hn : c = '\n'
    · subst hn
      cases b with
      | true =>
        rw [pyUNLGo, if_pos rfl, if_pos rfl, ih false, jsonMeat_cons]
        rw [show isJsonWs '\n' = true from by decide]
        simp
      | false =>
        rw [pyUNLGo, if_pos rfl, if_neg (by decide), jsonMeat_cons, jsonMeat_cons, ih false]
    · by_cases hr : c = '\x0d'
      · subst hr
        rw [pyUNLGo_cr, jsonMeat_cons, jsonMeat_cons, ih true]
        rw [show isJsonWs '\n' = true from by decide, show isJsonWs '\x0d' = true from by decide]
      · rw [pyUNLGo, if_neg hn, if_neg hr, jsonMeat_cons, jsonMeat_cons, ih false]

/-- `skipWs` drops a whitespace head. -/
theorem skipWs_cons_ws (c : Char) (h : isJsonWs c = true) (t : List Char) :
    skipWs (c :: t) = skipWs t := by
  rw [skipWs, if_pos h]

/-- `skipWs` stops at a non-whitespace head. -/
theorem skipWs_cons_not (c : Char) (h : isJsonWs c = false) (t : List Char) :
    skipWs (c :: t) = c :: t := by
  rw [skipWs, if_neg (by simp [h])]

/-- Skipping JSON whitespace commutes with newline-translation: translation
maps whitespace to whitespace and touches nothing else. -/
theorem skipWs_pyUNLGo (s : List Char) : ∀ b, skipWs (pyUNLGo b s) = pyUNLGo false (skipWs s) := by
  induction s with
  | nil => intro b; rfl
  | cons c rest ih =>
    intro b
    by_cases hn : c = '\n'
    · subst hn
      cases b with
      | true =>
        rw [pyUNLGo, if_pos rfl, if_pos rfl, skipWs_cons_ws '\n' (by decide)]
        exact ih false
      | false =>
        rw [pyUNLGo, if_pos rfl, if_neg (by decide), skipWs_cons_ws '\n' (by decide),
          skipWs_cons_ws '\n' (by decide)]
        exact ih false
    · by_cases hr : c = '\x0d'
      · subst hr
        rw [pyUNLGo_cr, skipWs_cons_ws '\n' (by decide), skipWs_cons_ws '\x0d' (by decide)]
        exact ih true
      · rw [pyUNLGo, if_neg hn, if_neg hr]
        by_cases hw : isJsonWs c = true
        · rw [skipWs_cons_ws c hw, skipWs_cons_ws c hw]
          exact ih false
        · have hw2 : isJsonWs c = false := by revert hw; cases isJsonWs c <;> simp
          rw [skipWs_cons_not c hw2, skipWs_cons_not c hw2, pyUNLGo_cons c hr]

/-- The output of `skipWs` is empty or starts with a non-whitespace character. -/
theorem skipWs_shape (s : List Char) :
    skipWs s = [] ∨ ∃ c r, skipWs s = c :: r ∧ isJsonWs c = false := by
  induction s with
  | nil => exact Or.inl rfl
  | cons c rest ih =>
    by_cases hw : isJsonWs c = true
    · rw [skipWs_cons_ws c hw]; exact ih
    · have hw2 : isJsonWs c = false := by revert hw; cases isJsonWs c <;> simp
      exact Or.inr ⟨c, rest, skipWs_cons_not c hw2 rest, hw2⟩

/-- A hex digit is neither a line feed nor a carriage return. -/
theorem hexVal_ne_nl (c : Char) (v : Nat) (h : hexVal c = some v) : c ≠ '\n' ∧ c ≠ '\x0d' := by
  constructor <;> rintro rfl
  · rw [show hexVal '\n' = none from by decide] at h; exact Option.noConfusion h
  · rw [show hexVal '\x0d' = none from by decide] at h; exact Option.noConfusion h

/-- A decimal digit is neither a carriage return nor a line feed. -/
theorem digit_ne_cr (c : Char) (h : '0' ≤ c ∧ c ≤ '9') : c ≠ '\x0d' ∧ c ≠ '\n' := by
  constructor <;> rintro rfl <;> revert h <;> decide

/-- Characterization of a successful `parseHex4`. -/
theorem parseHex4_some (w : List Char) (h : Nat) (r : List Char)
    (hp : parseHex4 w = some (h, r)) :
    ∃ c1 c2 c3 c4 v1 v2 v3 v4, w = c1 :: c2 :: c3 :: c4 :: r ∧
      hexVal c1 = some v1 ∧ hexVal c2 = some v2 ∧ hexVal c3 = some v3 ∧ hexVal c4 = some v4 ∧
      h = ((v1 * 16 + v2) * 16 + v3) * 16 + v4 := by
  match w with
  | [] => exact Option.noConfusion hp
  | [c1] => exact Option.noConfusion hp
  | [c1, c2] => exact Option.noConfusion hp
  | [c1, c2, c3] => exact Option.noConfusion hp
  | c1 :: c2 :: c3 :: c4 :: rest =>
    rw [parseHex4] at hp
    cases hv1 : hexVal c1 with
    | none => rw [hv1] at hp; exact Option.noConfusion hp
    | some v1 =>
      cases hv2 : hexVal c2 with
      | none => rw [hv1, hv2] at hp; exact Option.noConfusion hp
      | some v2 =>
        cases hv3 : hexVal c3 with
        | none => rw [hv1, hv2, hv3] at hp; exact Option.noConfusion hp
        | some v3 =>
          cases hv4 : hexVal c4 with
          | none => rw [hv1, hv2, hv3, hv4] at hp; exact Option.noConfusion hp
          | some v4 =>
            rw [hv1, hv2, hv3, hv4] at hp
            simp only [Option.some.injEq, Prod.mk.injEq] at hp
            obtain ⟨hh, rfl⟩ := hp
            exact ⟨c1, c2, c3, c4, v1, v2, v3, v4, rfl, hv1, hv2, hv3, hv4, hh.symm⟩

/-- Building a successful `parseHex4` from its digits. -/
theorem parseHex4_build (c1 c2 c3 c4 : Char) (r : List Char) (v1 v2 v3 v4 : Nat)
    (h1 : hexVal c1 = some v1) (h2 : hexVal c2 = some v2)
    (h3 : hexVal c3 = some v3) (h4 : hexVal c4 = some v4) :
    parseHex4 (c1 :: c2 :: c3 :: c4 :: r) = some (((v1 * 16 + v2) * 16 + v3) * 16 + v4, r) := by
  rw [parseHex4, h1, h2, h3, h4]

/-- A successful `parseHex4` consumes exactly four characters. -/
theorem parseHex4_length (w : List Char) (h : Nat) (r : List Char)
    (hp : parseHex4 w = some (h, r)) : w.length = r.length + 4 := by
  obtain ⟨c1, c2, c3, c4, _, _, _, _, hw, _⟩ := parseHex4_some w h r hp
  rw [hw]; simp

/-- `parseStringBody` fails on empty input at any fuel. -/
theorem parseStringBody_nil (f : Nat) : parseStringBody f [] = none := by
  cases f <;> rfl

/-- `parseStringBody` does not depend on the fuel, provided the fuel exceeds
the input length (each step consumes at least one character). -/
theorem parseStringBody_fuel (f1 : Nat) : ∀ (f2 : Nat) (y : List Char),
    y.length < f1 → y.length < f2 → parseStringBody f1 y = parseStringBody f2 y := by
  induction f1 with
  | zero => intro f2 y h1 h2; omega
  | succ g1 ih =>
    intro f2 y h1 h2
    cases y with
    | nil => rw [parseStringBody_nil, parseStringBody_nil]
    | cons c rest =>
      cases f2 with
      | zero => exact absurd h2 (by omega)
      | succ g2 =>
        conv_lhs => rw [parseStringBody.eq_def]
        conv_rhs => rw [parseStringBody.eq_def]
        dsimp only []
        by_cases hq : c = '"'
        · simp only [if_pos hq]
        · simp only [if_neg hq]
          by_cases hb : c = '\\'
          · simp only [if_pos hb]
            cases rest with
            | nil => rfl
            | cons e rest2 =>
              dsimp only []
              have hr2a : rest2.length < g1 := by simp at h1; omega
              have hr2b : rest2.length < g2 := by simp at h2; omega
              by_cases he1 : e = '"'
              · simp only [if_pos he1]; rw [ih g2 rest2 hr2a hr2b]
              · simp only [if_neg he1]
                by_cases he2 : e = '\\'
                · simp only [if_pos he2]; rw [ih g2 rest2 hr2a hr2b]
                · simp only [if_neg he2]
                  by_cases he3 : e = '/'
                  · simp only [if_pos he3]; rw [ih g2 rest2 hr2a hr2b]
                  · simp only [if_neg he3]
                    by_cases he4 : e = 'b'
                    · simp only [if_pos he4]; rw [ih g2 rest2 hr2a hr2b]
                    · simp only [if_neg he4]
                      by_cases he5 : e = 'f'
                      · simp only [if_pos he5]; rw [ih g2 rest2 hr2a hr2b]
                      · simp only [if_neg he5]
                        by_cases he6 : e = 'n'
                        · simp only [if_pos he6]; rw [ih g2 rest2 hr2a hr2b]
                        · simp only [if_neg he6]
                          by_cases he7 : e = 'r'
                          · simp only [if_pos he7]; rw [ih g2 rest2 hr2a hr2b]
                          · simp only [if_neg he7]
                            by_cases he8 : e = 't'
                            · simp only [if_pos he8]; rw [ih g2 rest2 hr2a hr2b]
                            · simp only [if_neg he8]
                              by_cases he9 : e = 'u'
                              · simp only [if_pos he9]
                                cases hh : parseHex4 rest2 with
                                | none => rfl
                                | some pr =>
                                  obtain ⟨h, rest3⟩ := pr
                                  dsimp only []
                                  have hlen3 := parseHex4_length rest2 h rest3 hh
                                  by_cases hrg : h < 0xD800 ∨ 0xDFFF < h
                                  · simp only [if_pos hrg]
                                    rw [ih g2 rest3 (by omega) (by omega)]
                                  · simp only [if_neg hrg]
                                    by_cases hlo : h < 0xDC00
                                    · simp only [if_pos hlo]
                                      cases rest3 with
                                      | nil => rfl
                                      | cons a rest3x =>
                                        cases rest3x with
                                        | nil => rfl
                                        | cons b rest4 =>
                                          dsimp only []
                                          by_cases hab : a = '\\' ∧ b = 'u'
                                          · simp only [if_pos hab]
                                            cases hh2 : parseHex4 rest4 with
                                            | none => rfl
                                            | some pr2 =>
                                              obtain ⟨l, rest5⟩ := pr2
                                              dsimp only []
                                              have hlen5 := parseHex4_length rest4 l rest5 hh2
                                              by_cases hl : 0xDC00 ≤ l ∧ l ≤ 0xDFFF
                                              · simp only [if_pos hl]
                                                rw [ih g2 rest5 (by simp at hlen3; omega)
                                                  (by simp at hlen3; omega)]
                                              · simp only [if_neg hl]
                                          · simp only [if_neg hab]
                                    · simp only [if_neg hlo]
                              · simp only [if_neg he9]
          · simp only [if_neg hb]
            by_cases hc : 0x20 ≤ c.toNat
            · simp only [if_pos hc]
              rw [ih g2 rest (by simp at h1; omega) (by simp at h2; omega)]
            · simp only [if_neg hc]

/-- Step: a closing quote ends the string body. -/
theorem parseStringBody_quote (f : Nat) (t : List Char) :
    parseStringBody (f + 1) ('"' :: t) = some ([], t) := rfl

/-- Step: a lone backslash at the end of input fails. -/
theorem parseStringBody_bs_nil (f : Nat) : parseStringBody (f + 1) ['\\'] = none := rfl

/-- Step: a raw line feed in a string body is rejected (control character). -/
theorem parseStringBody_nl (f : Nat) (t : List Char) :
    parseStringBody (f + 1) ('\n' :: t) = none := rfl

/-- Step: a backslash followed by a line feed is not a valid escape. -/
theorem parseStringBody_bs_nl (f : Nat) (t : List Char) :
    parseStringBody (f + 1) ('\\' :: '\n' :: t) = none := rfl

/-- Step: an ordinary character is kept. -/
theorem parseStringBody_raw (f : Nat) (c : Char) (t : List Char)
    (h1 : c ≠ '"') (h2 : c ≠ '\\') (h3 : 0x20 ≤ c.toNat) :
    parseStringBody (f + 1) (c :: t) =
      (parseStringBody f t).map (fun p => (c :: p.1, p.2)) := by
  rw [parseStringBody.eq_def]
  dsimp only []
  rw [if_neg h1, if_neg h2, if_pos h3]

/-- Step: a control character is rejected. -/
theorem parseStringBody_raw_none (f : Nat) (c : Char) (t : List Char)
    (h1 : c ≠ '"') (h2 : c ≠ '\\') (h3 : ¬0x20 ≤ c.toNat) :
    parseStringBody (f + 1) (c :: t) = none := by
  rw [parseStringBody.eq_def]
  dsimp only []
  rw [if_neg h1, if_neg h2, if_neg h3]

/-- Step: the `\u` escape, with the hex parsing still to be resolved. -/
theorem parseStringBody_u (g : Nat) (t : List Char) :
    parseStringBody (g + 1) ('\\' :: 'u' :: t) =
      match parseHex4 t with
      | none => none
      | some (h, rest3) =>
        if h < 0xD800 ∨ 0xDFFF < h then
          (parseStringBody g rest3).map (fun p => (Char.ofNat h :: p.1, p.2))
        else if h < 0xDC00 then
          match rest3 with
          | a :: b :: rest4 =>
            if a = '\\' ∧ b = 'u' then
              match parseHex4 rest4 with
              | some (l, rest5) =>
                if 0xDC00 ≤ l ∧ l ≤ 0xDFFF then
                  (parseStringBody g rest5).map (fun p =>
                    (Char.ofNat (0x10000 + (h - 0xD800) * 0x400 + (l - 0xDC00)) :: p.1, p.2))
                else none
              | none => none
            else none
          | _ => none
        else none := rfl

/-- Generic forward-transport step for a single-character escape, driven by
the escape's defining equation. -/
theorem parseStringBody_escStep_fwd (E D : Char) (hE : E ≠ '\x0d')
    (heq : ∀ (g : Nat) (t : List Char), parseStringBody (g + 1) ('\\' :: E :: t) =
      (parseStringBody g t).map (fun p => (D :: p.1, p.2)))
    (g : Nat) (rest2 s r : List Char)
    (ih : ∀ (y s r : List Char), parseStringBody g y = some (s, r) →
      parseStringBody ((pyUNLGo false y).length + 1) (pyUNLGo false y) =
        some (s, pyUNLGo false r))
    (h : parseStringBody (g + 1) ('\\' :: E :: rest2) = some (s, r)) :
    parseStringBody ((pyUNLGo false ('\\' :: E :: rest2)).length + 1)
      (pyUNLGo false ('\\' :: E :: rest2)) = some (s, pyUNLGo false r) := by
  rw [heq g rest2] at h
  cases hrec : parseStringBody g rest2 with
  | none => rw [hrec] at h; exact Option.noConfusion h
  | some p =>
    obtain ⟨s0, r0⟩ := p
    rw [hrec] at h
    simp only [Option.map_some', Option.some.injEq, Prod.mk.injEq] at h
    obtain ⟨rfl, rfl⟩ := h
    rw [pyUNLGo_cons '\\' (by decide), pyUNLGo_cons E hE]
    rw [heq ('\\' :: E :: pyUNLGo false rest2).length (pyUNLGo false rest2)]
    rw [parseStringBody_fuel ('\\' :: E :: pyUNLGo false rest2).length
      ((pyUNLGo false rest2).length + 1) (pyUNLGo false rest2) (by simp only [List.length_cons]; omega) (by omega)]
    rw [ih rest2 s0 r0 hrec]
    rfl

/-- Forward simulation: a successful string-body parse is preserved by
newline-translation of the input (translation fixes every character a
successful parse consumes). -/
theorem parseStringBody_pyUNL_fwd (f : Nat) : ∀ (y s r : List Char),
    parseStringBody f y = some (s, r) →
    parseStringBody ((pyUNLGo false y).length + 1) (pyUNLGo false y) =
      some (s, pyUNLGo false r) := by
  induction f with
  | zero => intro y s r h; rw [parseStringBody.eq_1] at h; exact Option.noConfusion h
  | succ g ih =>
    intro y s r h
    cases y with
    | nil => rw [parseStringBody_nil] at h; exact Option.noConfusion h
    | cons c rest =>
      by_cases hq : c = '"'
      · subst hq
        rw [parseStringBody_quote] at h
        simp only [Option.some.injEq, Prod.mk.injEq] at h
        obtain ⟨rfl, rfl⟩ := h
        rw [pyUNLGo_cons '"' (by decide), parseStringBody_quote]
      · by_cases hbs : c = '\\'
        · subst hbs
          cases rest with
          | nil => rw [parseStringBody_bs_nil] at h; exact Option.noConfusion h
          | cons e rest2 =>
            by_cases he1 : e = '"'
            · subst he1; exact parseStringBody_escStep_fwd '"' '"' (by decide)
                (fun g t => rfl) g rest2 s r ih h
            · by_cases he2 : e = '\\'
              · subst he2; exact parseStringBody_escStep_fwd '\\' '\\' (by decide)
                  (fun g t => rfl) g rest2 s r ih h
              · by_cases he3 : e = '/'
                · subst he3; exact parseStringBody_escStep_fwd '/' '/' (by decide)
                    (fun g t => rfl) g rest2 s r ih h
                · by_cases he4 : e = 'b'
                  · subst he4; exact parseStringBody_escStep_fwd 'b' '\x08' (by decide)
                      (fun g t => rfl) g rest2 s r ih h
                  · by_cases he5 : e = 'f'
                    · subst he5; exact parseStringBody_escStep_fwd 'f' '\x0c' (by decide)
                        (fun g t => rfl) g rest2 s r ih h
                    · by_cases he6 : e = 'n'
                      · subst he6; exact parseStringBody_escStep_fwd 'n' '\n' (by decide)
                          (fun g t => rfl) g rest2 s r ih h
                      · by_cases he7 : e = 'r'
                        · subst he7; exact parseStringBody_escStep_fwd 'r' '\x0d' (by decide)
                            (fun g t => rfl) g rest2 s r ih h
                        · by_cases he8 : e = 't'
                          · subst he8; exact parseStringBody_escStep_fwd 't' '\t' (by decide)
                              (fun g t => rfl) g rest2 s r ih h
                          · by_cases he9 : e = 'u'
                            · subst he9
                              rw [parseStringBody_u] at h
                              cases hh : parseHex4 rest2 with
                              | none => rw [hh] at h; exact Option.noConfusion h
                              | some pr =>
                                obtain ⟨hv, rest3⟩ := pr
                                rw [hh] at h
                                dsimp only [] at h
                                obtain ⟨c1, c2, c3, c4, v1, v2, v3, v4, hshape, hv1, hv2, hv3, hv4, hveq⟩ :=
                                  parseHex4_some rest2 hv rest3 hh
                                by_cases hrg : hv < 0xD800 ∨ 0xDFFF < hv
                                · rw [if_pos hrg] at h
                                  cases hrec : parseStringBody g rest3 with
                                  | none => rw [hrec] at h; exact Option.noConfusion h
                                  | some p =>
                                    obtain ⟨s0, r0⟩ := p
                                    rw [hrec] at h
                                    simp only [Option.map_some', Option.some.injEq,
                                      Prod.mk.injEq] at h
                                    obtain ⟨rfl, rfl⟩ := h
                                    subst hshape
                                    rw [pyUNLGo_cons '\\' (by decide), pyUNLGo_cons 'u' (by decide),
                                      pyUNLGo_cons c1 (hexVal_ne_nl c1 v1 hv1).2,
                                      pyUNLGo_cons c2 (hexVal_ne_nl c2 v2 hv2).2,
                                      pyUNLGo_cons c3 (hexVal_ne_nl c3 v3 hv3).2,
                                      pyUNLGo_cons c4 (hexVal_ne_nl c4 v4 hv4).2]
                                    rw [parseStringBody_u]
                                    rw [parseHex4_build c1 c2 c3 c4 (pyUNLGo false rest3)
                                      v1 v2 v3 v4 hv1 hv2 hv3 hv4]
                                    dsimp only []
                                    rw [← hveq, if_pos hrg]
                                    rw [parseStringBody_fuel
                                      ('\\' :: 'u' :: c1 :: c2 :: c3 :: c4 :: pyUNLGo false rest3).length
                                      ((pyUNLGo false rest3).length + 1) (pyUNLGo false rest3)
                                      (by simp only [List.length_cons]; omega) (by omega)]
                                    rw [ih rest3 s0 r0 hrec]
                                    rfl
                                · rw [if_neg hrg] at h
                                  by_cases hlo : hv < 0xDC00
                                  · rw [if_pos hlo] at h
                                    match rest3, hshape with
                                    | [], hshape => exact Option.noConfusion h
                                    | [a], hshape => exact Option.noConfusion h
                                    | a :: b :: rest4, hshape =>
                                      dsimp only [] at h
                                      by_cases hab : a = '\\' ∧ b = 'u'
                                      · rw [if_pos hab] at h
                                        obtain ⟨rfl, rfl⟩ := hab
                                        cases hh2 : parseHex4 rest4 with
                                        | none => rw [hh2] at h; exact Option.noConfusion h
                                        | some pr2 =>
                                          obtain ⟨lv, rest5⟩ := pr2
                                          rw [hh2] at h
                                          dsimp only [] at h
                                          by_cases hlr : 0xDC00 ≤ lv ∧ lv ≤ 0xDFFF
                                          · rw [if_pos hlr] at h
                                            cases hrec : parseStringBody g rest5 with
                                            | none => rw [hrec] at h; exact Option.noConfusion h
                                            | some p =>
                                              obtain ⟨s0, r0⟩ := p
                                              rw [hrec] at h
                                              simp only [Option.map_some', Option.some.injEq,
                                                Prod.mk.injEq] at h
                                              obtain ⟨rfl, rfl⟩ := h
                                              obtain ⟨d1, d2, d3, d4, w1, w2, w3, w4, hshape2,
                                                hw1, hw2, hw3, hw4, hlveq⟩ :=
                                                parseHex4_some rest4 lv rest5 hh2
                                              subst hshape
                                              subst hshape2
                                              rw [pyUNLGo_cons '\\' (by decide),
                                                pyUNLGo_cons 'u' (by decide),
                                                pyUNLGo_cons c1 (hexVal_ne_nl c1 v1 hv1).2,
                                                pyUNLGo_cons c2 (hexVal_ne_nl c2 v2 hv2).2,
                                                pyUNLGo_cons c3 (hexVal_ne_nl c3 v3 hv3).2,
                                                pyUNLGo_cons c4 (hexVal_ne_nl c4 v4 hv4).2,
                                                pyUNLGo_cons '\\' (by decide),
                                                pyUNLGo_cons 'u' (by decide),
                                                pyUNLGo_cons d1 (hexVal_ne_nl d1 w1 hw1).2,
                                                pyUNLGo_cons d2 (hexVal_ne_nl d2 w2 hw2).2,
                                                pyUNLGo_cons d3 (hexVal_ne_nl d3 w3 hw3).2,
                                                pyUNLGo_cons d4 (hexVal_ne_nl d4 w4 hw4).2]
                                              rw [parseStringBody_u]
                                              rw [parseHex4_build c1 c2 c3 c4
                                                ('\\' :: 'u' :: d1 :: d2 :: d3 :: d4 ::
                                                  pyUNLGo false rest5) v1 v2 v3 v4 hv1 hv2 hv3 hv4]
                                              dsimp only []
                                              rw [← hveq, if_neg hrg, if_pos hlo]
                                              try dsimp only []
                                              rw [if_pos ⟨rfl, rfl⟩]
                                              rw [parseHex4_build d1 d2 d3 d4 (pyUNLGo false rest5)
                                                w1 w2 w3 w4 hw1 hw2 hw3 hw4]
                                              try dsimp only []
                                              rw [← hlveq, if_pos hlr]
                                              rw [parseStringBody_fuel
                                                ('\\' :: 'u' :: c1 :: c2 :: c3 :: c4 :: '\\' :: 'u' ::
                                                  d1 :: d2 :: d3 :: d4 :: pyUNLGo false rest5).length
                                                ((pyUNLGo false rest5).length + 1)
                                                (pyUNLGo false rest5) (by simp only [List.length_cons]; omega) (by omega)]
                                              rw [ih rest5 s0 r0 hrec]
                                              rfl
                                          · rw [if_neg hlr] at h; exact Option.noConfusion h
                                      · rw [if_neg hab] at h; exact Option.noConfusion h
                                  · rw [if_neg hlo] at h; exact Option.noConfusion h
                            · rw [show parseStringBody (g + 1) ('\\' :: e :: rest2) = none from by
                                rw [parseStringBody.eq_def]; dsimp only []
                                rw [if_neg (by decide : ¬('\\' : Char) = '"'), if_pos rfl]
                                try dsimp only []
                                rw [if_neg he1, if_neg he2, if_neg he3, if_neg he4, if_neg he5,
                                  if_neg he6, if_neg he7, if_neg he8, if_neg he9]] at h
                              exact Option.noConfusion h
        · by_cases hctrl : 0x20 ≤ c.toNat
          · have hcr : c ≠ '\x0d' := by rintro rfl; exact absurd hctrl (by decide)
            rw [parseStringBody_raw g c rest hq hbs hctrl] at h
            cases hrec : parseStringBody g rest with
            | none => rw [hrec] at h; exact Option.noConfusion h
            | some p =>
              obtain ⟨s0, r0⟩ := p
              rw [hrec] at h
              simp only [Option.map_some', Option.some.injEq, Prod.mk.injEq] at h
              obtain ⟨rfl, rfl⟩ := h
              rw [pyUNLGo_cons c hcr]
              rw [parseStringBody_raw (c :: pyUNLGo false rest).length c (pyUNLGo false rest)
                hq hbs hctrl]
              rw [parseStringBody_fuel (c :: pyUNLGo false rest).length
                ((pyUNLGo false rest).length + 1) (pyUNLGo false rest) (by simp only [List.length_cons]; omega) (by omega)]
              rw [ih rest s0 r0 hrec]
              rfl
          · rw [parseStringBody_raw_none g c rest hq hbs hctrl] at h
            exact Option.noConfusion h

/-- Four-character inversion of newline-translation for line-feed-free heads. -/
theorem pyUNLGo_cons4_inv (c1 c2 c3 c4 : Char) (x w : List Char)
    (h1 : c1 ≠ '\n') (h2 : c2 ≠ '\n') (h3 : c3 ≠ '\n') (h4 : c4 ≠ '\n')
    (h : pyUNLGo false x = c1 :: c2 :: c3 :: c4 :: w) :
    ∃ v, x = c1 :: c2 :: c3 :: c4 :: v ∧ w = pyUNLGo false v := by
  obtain ⟨v1, rfl, hw1⟩ := pyUNLGo_cons_inv c1 x _ h1 h
  obtain ⟨v2, rfl, hw2⟩ := pyUNLGo_cons_inv c2 v1 _ h2 hw1.symm
  obtain ⟨v3, rfl, hw3⟩ := pyUNLGo_cons_inv c3 v2 _ h3 hw2.symm
  obtain ⟨v4, rfl, hw4⟩ := pyUNLGo_cons_inv c4 v3 _ h4 hw3.symm
  exact ⟨v4, rfl, hw4⟩

/-- Two-character inversion of newline-translation for the `\u` marker. -/
theorem pyUNLGo_cons2_inv (c1 c2 : Char) (x w : List Char)
    (h1 : c1 ≠ '\n') (h2 : c2 ≠ '\n')
    (h : pyUNLGo false x = c1 :: c2 :: w) :
    ∃ v, x = c1 :: c2 :: v ∧ w = pyUNLGo false v := by
  obtain ⟨v1, rfl, hw1⟩ := pyUNLGo_cons_inv c1 x _ h1 h
  obtain ⟨v2, rfl, hw2⟩ := pyUNLGo_cons_inv c2 v1 _ h2 hw1.symm
  exact ⟨v2, rfl, hw2⟩

/-- Generic backward-transport step for a single-character escape, driven by
the escape's defining equation. -/
theorem parseStringBody_escStep_bwd (E D : Char)
    (heq : ∀ (g : Nat) (t : List Char), parseStringBody (g + 1) ('\\' :: E :: t) =
      (parseStringBody g t).map (fun p => (D :: p.1, p.2)))
    (g : Nat) (y2 s w : List Char)
    (ih : ∀ (y s w : List Char), parseStringBody g (pyUNLGo false y) = some (s, w) →
      ∃ r, parseStringBody (y.length + 1) y = some (s, r) ∧ w = pyUNLGo false r)
    (h : parseStringBody (g + 1) ('\\' :: E :: pyUNLGo false y2) = some (s, w)) :
    ∃ r, parseStringBody (('\\' :: E :: y2).length + 1) ('\\' :: E :: y2) = some (s, r) ∧
      w = pyUNLGo false r := by
  rw [heq g (pyUNLGo false y2)] at h
  cases hrec : parseStringBody g (pyUNLGo false y2) with
  | none => rw [hrec] at h; exact Option.noConfusion h
  | some p =>
    obtain ⟨s0, w0⟩ := p
    rw [hrec] at h
    simp only [Option.map_some', Option.some.injEq, Prod.mk.injEq] at h
    obtain ⟨rfl, rfl⟩ := h
    obtain ⟨r0, hr0, rfl⟩ := ih y2 s0 w0 hrec
    refine ⟨r0, ?_, rfl⟩
    rw [heq ('\\' :: E :: y2).length y2]
    rw [parseStringBody_fuel ('\\' :: E :: y2).length (y2.length + 1) y2
      (by simp only [List.length_cons]; omega) (by omega)]
    rw [hr0]
    rfl

/-- Backward simulation: a successful string-body parse of a translated input
comes from a successful parse of the original, with translated remainder. -/
theorem parseStringBody_pyUNL_bwd (g : Nat) : ∀ (y s w : List Char),
    parseStringBody g (pyUNLGo false y) = some (s, w) →
    ∃ r, parseStringBody (y.length + 1) y = some (s, r) ∧ w = pyUNLGo false r := by
  induction g with
  | zero => intro y s w h; rw [parseStringBody.eq_1] at h; exact Option.noConfusion h
  | succ g ih =>
    intro y s w h
    cases hTy : pyUNLGo false y with
    | nil => rw [hTy, parseStringBody_nil] at h; exact Option.noConfusion h
    | cons c w1 =>
      rw [hTy] at h
      by_cases hcn : c = '\n'
      · subst hcn; rw [parseStringBody_nl] at h; exact Option.noConfusion h
      · obtain ⟨y1, rfl, hw1⟩ := pyUNLGo_cons_inv c y w1 hcn hTy
        subst hw1
        by_cases hq : c = '"'
        · subst hq
          rw [parseStringBody_quote] at h
          simp only [Option.some.injEq, Prod.mk.injEq] at h
          obtain ⟨rfl, rfl⟩ := h
          exact ⟨y1, parseStringBody_quote ('"' :: y1).length y1, rfl⟩
        · by_cases hbs : c = '\\'
          · subst hbs
            cases hTy1 : pyUNLGo false y1 with
            | nil => rw [hTy1, parseStringBody_bs_nil] at h; exact Option.noConfusion h
            | cons e w2 =>
              rw [hTy1] at h
              by_cases hen : e = '\n'
              · subst hen; rw [parseStringBody_bs_nl] at h; exact Option.noConfusion h
              · obtain ⟨y2, rfl, hw2⟩ := pyUNLGo_cons_inv e y1 w2 hen hTy1
                subst hw2
                by_cases he1 : e = '"'
                · subst he1; exact parseStringBody_escStep_bwd '"' '"' (fun g t => rfl) g y2 s w ih h
                · by_cases he2 : e = '\\'
                  · subst he2
                    exact parseStringBody_escStep_bwd '\\' '\\' (fun g t => rfl) g y2 s w ih h
                  · by_cases he3 : e = '/'
                    · subst he3
                      exact parseStringBody_escStep_bwd '/' '/' (fun g t => rfl) g y2 s w ih h
                    · by_cases he4 : e = 'b'
                      · subst he4
                        exact parseStringBody_escStep_bwd 'b' '\x08' (fun g t => rfl) g y2 s w ih h
                      · by_cases he5 : e = 'f'
                        · subst he5
                          exact parseStringBody_escStep_bwd 'f' '\x0c' (fun g t => rfl) g y2 s w ih h
                        · by_cases he6 : e = 'n'
                          · subst he6
                            exact parseStringBody_escStep_bwd 'n' '\n' (fun g t => rfl) g y2 s w ih h
                          · by_cases he7 : e = 'r'
                            · subst he7
                              exact parseStringBody_escStep_bwd 'r' '\x0d' (fun g t => rfl)
                                g y2 s w ih h
                            · by_cases he8 : e = 't'
                              · subst he8
                                exact parseStringBody_escStep_bwd 't' '\t' (fun g t => rfl)
                                  g y2 s w ih h
                              · by_cases he9 : e = 'u'
                                · subst he9
                                  rw [parseStringBody_u] at h
                                  cases hh : parseHex4 (pyUNLGo false y2) with
                                  | none => rw [hh] at h; exact Option.noConfusion h
                                  | some pr =>
                                    obtain ⟨hv, w3⟩ := pr
                                    rw [hh] at h
                                    dsimp only [] at h
                                    obtain ⟨c1, c2, c3, c4, v1, v2, v3, v4, hshape,
                                      hv1, hv2, hv3, hv4, hveq⟩ :=
                                      parseHex4_some (pyUNLGo false y2) hv w3 hh
                                    obtain ⟨y3, rfl, hw3⟩ := pyUNLGo_cons4_inv c1 c2 c3 c4 y2 w3
                                      (hexVal_ne_nl c1 v1 hv1).1 (hexVal_ne_nl c2 v2 hv2).1
                                      (hexVal_ne_nl c3 v3 hv3).1 (hexVal_ne_nl c4 v4 hv4).1 hshape
                                    subst hw3
                                    by_cases hrg : hv < 0xD800 ∨ 0xDFFF < hv
                                    · rw [if_pos hrg] at h
                                      cases hrec : parseStringBody g (pyUNLGo false y3) with
                                      | none => rw [hrec] at h; exact Option.noConfusion h
                                      | some p =>
                                        obtain ⟨s0, w0⟩ := p
                                        rw [hrec] at h
                                        simp only [Option.map_some', Option.some.injEq,
                                          Prod.mk.injEq] at h
                                        obtain ⟨rfl, rfl⟩ := h
                                        obtain ⟨r0, hr0, rfl⟩ := ih y3 s0 w0 hrec
                                        refine ⟨r0, ?_, rfl⟩
                                        rw [parseStringBody_u]
                                        rw [parseHex4_build c1 c2 c3 c4 y3 v1 v2 v3 v4
                                          hv1 hv2 hv3 hv4]
                                        dsimp only []
                                        rw [← hveq, if_pos hrg]
                                        rw [parseStringBody_fuel
                                          ('\\' :: 'u' :: c1 :: c2 :: c3 :: c4 :: y3).length
                                          (y3.length + 1) y3
                                          (by simp only [List.length_cons]; omega) (by omega)]
                                        rw [hr0]
                                        rfl
                                    · rw [if_neg hrg] at h
                                      by_cases hlo : hv < 0xDC00
                                      · rw [if_pos hlo] at h
                                        cases hTy3 : pyUNLGo false y3 with
                                        | nil => rw [hTy3] at h; exact Option.noConfusion h
                                        | cons a tl =>
                                          cases tl with
                                          | nil => rw [hTy3] at h; exact Option.noConfusion h
                                          | cons b w4 =>
                                            rw [hTy3] at h
                                            dsimp only [] at h
                                            by_cases hab : a = '\\' ∧ b = 'u'
                                            · obtain ⟨rfl, rfl⟩ := hab
                                              rw [if_pos ⟨rfl, rfl⟩] at h
                                              obtain ⟨y4, rfl, hw4⟩ := pyUNLGo_cons2_inv '\\' 'u'
                                                y3 w4 (by decide) (by decide) hTy3
                                              subst hw4
                                              cases hh2 : parseHex4 (pyUNLGo false y4) with
                                              | none => rw [hh2] at h; exact Option.noConfusion h
                                              | some pr2 =>
                                                obtain ⟨lv, w5⟩ := pr2
                                                rw [hh2] at h
                                                dsimp only [] at h
                                                obtain ⟨d1, d2, d3, d4, u1, u2, u3, u4, hshape2,
                                                  hu1, hu2, hu3, hu4, hlveq⟩ :=
                                                  parseHex4_some (pyUNLGo false y4) lv w5 hh2
                                                obtain ⟨y5, rfl, hw5⟩ :=
                                                  pyUNLGo_cons4_inv d1 d2 d3 d4 y4 w5
                                                  (hexVal_ne_nl d1 u1 hu1).1
                                                  (hexVal_ne_nl d2 u2 hu2).1
                                                  (hexVal_ne_nl d3 u3 hu3).1
                                                  (hexVal_ne_nl d4 u4 hu4).1 hshape2
                                                subst hw5
                                                by_cases hlr : 0xDC00 ≤ lv ∧ lv ≤ 0xDFFF
                                                · rw [if_pos hlr] at h
                                                  cases hrec : parseStringBody g
                                                      (pyUNLGo false y5) with
                                                  | none =>
                                                    rw [hrec] at h; exact Option.noConfusion h
                                                  | some p =>
                                                    obtain ⟨s0, w0⟩ := p
                                                    rw [hrec] at h
                                                    simp only [Option.map_some',
                                                      Option.some.injEq, Prod.mk.injEq] at h
                                                    obtain ⟨rfl, rfl⟩ := h
                                                    obtain ⟨r0, hr0, rfl⟩ := ih y5 s0 w0 hrec
                                                    refine ⟨r0, ?_, rfl⟩
                                                    rw [parseStringBody_u]
                                                    rw [parseHex4_build c1 c2 c3 c4
                                                      ('\\' :: 'u' :: d1 :: d2 :: d3 :: d4 :: y5)
                                                      v1 v2 v3 v4 hv1 hv2 hv3 hv4]
                                                    dsimp only []
                                                    rw [← hveq, if_neg hrg, if_pos hlo]
                                                    try dsimp only []
                                                    rw [if_pos ⟨rfl, rfl⟩]
                                                    rw [parseHex4_build d1 d2 d3 d4 y5
                                                      u1 u2 u3 u4 hu1 hu2 hu3 hu4]
                                                    try dsimp only []
                                                    rw [← hlveq, if_pos hlr]
                                                    rw [parseStringBody_fuel
                                                      ('\\' :: 'u' :: c1 :: c2 :: c3 :: c4 ::
                                                        '\\' :: 'u' :: d1 :: d2 :: d3 :: d4 ::
                                                        y5).length
                                                      (y5.length + 1) y5
                                                      (by simp only [List.length_cons]; omega)
                                                      (by omega)]
                                                    rw [hr0]
                                                    rfl
                                                · rw [if_neg hlr] at h
                                                  exact Option.noConfusion h
                                            · rw [if_neg hab] at h; exact Option.noConfusion h
                                      · rw [if_neg hlo] at h; exact Option.noConfusion h
                                · rw [show parseStringBody (g + 1)
                                      ('\\' :: e :: pyUNLGo false y2) = none from by
                                    rw [parseStringBody.eq_def]; dsimp only []
                                    rw [if_neg (by decide : ¬('\\' : Char) = '"'), if_pos rfl]
                                    try dsimp only []
                                    rw [if_neg he1, if_neg he2, if_neg he3, if_neg he4, if_neg he5,
                                      if_neg he6, if_neg he7, if_neg he8, if_neg he9]] at h
                                  exact Option.noConfusion h
          · by_cases hctrl : 0x20 ≤ c.toNat
            · rw [parseStringBody_raw g c (pyUNLGo false y1) hq hbs hctrl] at h
              cases hrec : parseStringBody g (pyUNLGo false y1) with
              | none => rw [hrec] at h; exact Option.noConfusion h
              | some p =>
                obtain ⟨s0, w0⟩ := p
                rw [hrec] at h
                simp only [Option.map_some', Option.some.injEq, Prod.mk.injEq] at h
                obtain ⟨rfl, rfl⟩ := h
                obtain ⟨r0, hr0, rfl⟩ := ih y1 s0 w0 hrec
                refine ⟨r0, ?_, rfl⟩
                rw [parseStringBody_raw (c :: y1).length c y1 hq hbs hctrl]
                rw [parseStringBody_fuel (c :: y1).length (y1.length + 1) y1
                  (by simp only [List.length_cons]; omega) (by omega)]
                rw [hr0]
                rfl
            · rw [parseStringBody_raw_none g c (pyUNLGo false y1) hq hbs hctrl] at h
              exact Option.noConfusion h

/-- Step: `takeDigits` keeps a digit head. -/
theorem takeDigits_digit (c : Char) (t : List Char) (h : '0' ≤ c ∧ c ≤ '9') :
    takeDigits (c :: t) = (c :: (takeDigits t).1, (takeDigits t).2) := by
  rw [takeDigits.eq_def]
  dsimp only []
  rw [if_pos h]

/-- Step: `takeDigits` stops at a non-digit head. -/
theorem takeDigits_not (c : Char) (t : List Char) (h : ¬('0' ≤ c ∧ c ≤ '9')) :
    takeDigits (c :: t) = ([], c :: t) := by
  rw [takeDigits.eq_def]
  dsimp only []
  rw [if_neg h]

/-- `takeDigits` commutes with newline-translation: translation fixes digits
and maps the first non-digit to a non-digit. -/
theorem takeDigits_pyUNL (x : List Char) :
    takeDigits (pyUNLGo false x) = ((takeDigits x).1, pyUNLGo false (takeDigits x).2) := by
  induction x with
  | nil => rfl
  | cons c rest ih =>
    by_cases hd : '0' ≤ c ∧ c ≤ '9'
    · rw [pyUNLGo_cons c (digit_ne_cr c hd).1, takeDigits_digit c (pyUNLGo false rest) hd,
        takeDigits_digit c rest hd, ih]
    · by_cases hcr : c = '\x0d'
      · subst hcr
        rw [pyUNLGo_cr false rest, takeDigits_not '\n' (pyUNLGo true rest) (by decide),
          takeDigits_not '\x0d' rest hd, pyUNLGo_cr false rest]
      · rw [pyUNLGo_cons c hcr, takeDigits_not c (pyUNLGo false rest) hd,
          takeDigits_not c rest hd, pyUNLGo_cons c hcr]

/-- Unfolding `parseIntLit` on a leading minus with no digits after it. -/
theorem parseIntLit_minus_nil (rest r : List Char) (h : takeDigits rest = ([], r)) :
    parseIntLit ('-' :: rest) = none := by
  rw [parseIntLit.eq_def]
  dsimp only []
  rw [if_pos rfl]
  dsimp only []
  rw [h]

/-- Unfolding `parseIntLit` on a leading minus followed by digits. -/
theorem parseIntLit_minus_cons (rest r : List Char) (d : Char) (ds : List Char)
    (h : takeDigits rest = (d :: ds, r)) :
    parseIntLit ('-' :: rest) =
      if d = '0' ∧ ds ≠ [] then none
      else some (-(Int.ofNat (digitsToNat 0 (d :: ds))), r) := by
  rw [parseIntLit.eq_def]
  dsimp only []
  rw [if_pos rfl]
  dsimp only []
  rw [h]
  dsimp only []
  by_cases hz : d = '0' ∧ ds ≠ []
  · rw [if_pos hz, if_pos hz]
  · rw [if_neg hz, if_neg hz, if_pos rfl]

/-- Unfolding `parseIntLit` on a non-minus head with no digits. -/
theorem parseIntLit_plain_nil (c : Char) (hm : c ≠ '-') (rest r : List Char)
    (h : takeDigits (c :: rest) = ([], r)) : parseIntLit (c :: rest) = none := by
  rw [parseIntLit.eq_def]
  dsimp only []
  rw [if_neg hm]
  dsimp only []
  rw [h]

/-- Unfolding `parseIntLit` on a non-minus head with digits. -/
theorem parseIntLit_plain_cons (c : Char) (hm : c ≠ '-') (rest r : List Char) (d : Char)
    (ds : List Char) (h : takeDigits (c :: rest) = (d :: ds, r)) :
    parseIntLit (c :: rest) =
      if d = '0' ∧ ds ≠ [] then none
      else some (Int.ofNat (digitsToNat 0 (d :: ds)), r) := by
  rw [parseIntLit.eq_def]
  dsimp only []
  rw [if_neg hm]
  dsimp only []
  rw [h]
  dsimp only []
  by_cases hz : d = '0' ∧ ds ≠ []
  · rw [if_pos hz, if_pos hz]
  · rw [if_neg hz, if_neg hz, if_neg (by decide : ¬(false = true))]

/-- A head that is neither a digit nor a minus sign fails `parseIntLit`. -/
theorem parseIntLit_none_head (c : Char) (rest : List Char)
    (h1 : ¬('0' ≤ c ∧ c ≤ '9')) (h2 : c ≠ '-') : parseIntLit (c :: rest) = none :=
  parseIntLit_plain_nil c h2 rest (c :: rest) (takeDigits_not c rest h1)

/-- `parseIntLit` commutes with newline-translation. -/
theorem parseIntLit_pyUNL (s : List Char) :
    parseIntLit (pyUNLGo false s) =
      (parseIntLit s).map (fun p => (p.1, pyUNLGo false p.2)) := by
  cases s with
  | nil => rfl
  | cons c rest =>
    by_cases hm : c = '-'
    · subst hm
      have ht := takeDigits_pyUNL rest
      cases htD : takeDigits rest with
      | mk dpart rpart =>
        rw [htD] at ht
        dsimp only [] at ht
        cases dpart with
        | nil =>
          rw [pyUNLGo_cons '-' (by decide),
            parseIntLit_minus_nil (pyUNLGo false rest) (pyUNLGo false rpart) ht,
            parseIntLit_minus_nil rest rpart htD]
          rfl
        | cons d ds =>
          rw [pyUNLGo_cons '-' (by decide),
            parseIntLit_minus_cons (pyUNLGo false rest) (pyUNLGo false rpart) d ds ht,
            parseIntLit_minus_cons rest rpart d ds htD]
          by_cases hz : d = '0' ∧ ds ≠ []
          · rw [if_pos hz, if_pos hz]; rfl
          · rw [if_neg hz, if_neg hz]; rfl
    · by_cases hcr : c = '\x0d'
      · subst hcr
        rw [pyUNLGo_cr false rest,
          parseIntLit_plain_nil '\n' (by decide) (pyUNLGo true rest)
            ('\n' :: pyUNLGo true rest) (takeDigits_not '\n' (pyUNLGo true rest) (by decide)),
          parseIntLit_plain_nil '\x0d' (by decide) rest ('\x0d' :: rest)
            (takeDigits_not '\x0d' rest (by decide))]
        rfl
      · have ht : takeDigits (c :: pyUNLGo false rest) =
            ((takeDigits (c :: rest)).1, pyUNLGo false (takeDigits (c :: rest)).2) := by
          rw [← pyUNLGo_cons c hcr]
          exact takeDigits_pyUNL (c :: rest)
        cases htD : takeDigits (c :: rest) with
        | mk dpart rpart =>
          rw [htD] at ht
          dsimp only [] at ht
          cases dpart with
          | nil =>
            rw [pyUNLGo_cons c hcr,
              parseIntLit_plain_nil c hm (pyUNLGo false rest) (pyUNLGo false rpart) ht,
              parseIntLit_plain_nil c hm rest rpart htD]
            rfl
          | cons d ds =>
            rw [pyUNLGo_cons c hcr,
              parseIntLit_plain_cons c hm (pyUNLGo false rest) (pyUNLGo false rpart) d ds ht,
              parseIntLit_plain_cons c hm rest rpart d ds htD]
            by_cases hz : d = '0' ∧ ds ≠ []
            · rw [if_pos hz, if_pos hz]; rfl
            · rw [if_neg hz, if_neg hz]; rfl

/-- Forward transport for literal tails (`rue`, `alse`, `ull`): the words are
carriage-return-free, so translation fixes them. -/
theorem parseLit_pyUNL_fwd (word : List Char) (hw : ∀ c ∈ word, c ≠ '\x0d')
    (v v2 : JValue) (rest r : List Char) (h : parseLit word v rest = some (v2, r)) :
    parseLit word v (pyUNLGo false rest) = some (v2, pyUNLGo false r) := by
  rw [parseLit] at h
  by_cases hp : word.isPrefixOf rest
  · rw [if_pos hp] at h
    simp only [Option.some.injEq, Prod.mk.injEq] at h
    obtain ⟨rfl, rfl⟩ := h
    obtain ⟨t, ht⟩ := List.isPrefixOf_iff_prefix.mp hp
    subst ht
    rw [pyUNLGo_append word hw t, parseLit,
      if_pos (List.isPrefixOf_iff_prefix.mpr ⟨pyUNLGo false t, rfl⟩),
      List.drop_left, List.drop_left]
  · rw [if_neg hp] at h
    exact Option.noConfusion h

/-- Backward transport for literal tails: the words are line-feed-free, so a
match against the translated input pulls back to the original. -/
theorem parseLit_pyUNL_bwd (word : List Char) (hw : ∀ c ∈ word, c ≠ '\n')
    (v v2 : JValue) (rest w : List Char)
    (h : parseLit word v (pyUNLGo false rest) = some (v2, w)) :
    ∃ r, parseLit word v rest = some (v2, r) ∧ w = pyUNLGo false r := by
  rw [parseLit] at h
  by_cases hp : word.isPrefixOf (pyUNLGo false rest)
  · rw [if_pos hp] at h
    simp only [Option.some.injEq, Prod.mk.injEq] at h
    obtain ⟨rfl, rfl⟩ := h
    obtain ⟨t, ht⟩ := List.isPrefixOf_iff_prefix.mp hp
    obtain ⟨r0, rfl, hw0⟩ := pyUNLGo_append_inv word hw rest t ht.symm
    subst hw0
    refine ⟨r0, ?_, ?_⟩
    · rw [parseLit, if_pos (List.isPrefixOf_iff_prefix.mpr ⟨r0, rfl⟩), List.drop_left]
    · rw [← ht, List.drop_left]
  · rw [if_neg hp] at h
    exact Option.noConfusion h

/-- Newline-translation of the empty text. -/
theorem pyUNLGo_nil (b : Bool) : pyUNLGo b [] = [] := rfl

/-- A line feed can never start a successful `parseValue`. -/
theorem parseValue_nl (g : Nat) (t : List Char) : parseValue (g + 1) ('\n' :: t) = none := by
  rw [parseValue.eq_def]
  dsimp only []
  rw [if_neg (by decide : ¬('\n' : Char) = '"'), if_neg (by decide : ¬('\n' : Char) = '['),
    if_neg (by decide : ¬('\n' : Char) = '{'), if_neg (by decide : ¬('\n' : Char) = 't'),
    if_neg (by decide : ¬('\n' : Char) = 'f'), if_neg (by decide : ¬('\n' : Char) = 'n'),
    parseIntLit_none_head '\n' t (by decide) (by decide)]
  rfl

/-- Forward simulation for the JSON value parser: newline-translating the
input preserves any successful parse, with translated remainder.  The three
conjuncts cover the mutual functions `parseValue`, `parseListRest` and
`parseObjRest` at equal fuel. -/
theorem parser_pyUNL_fwd (f : Nat) :
    (∀ (x : List Char) (v : JValue) (r : List Char), parseValue f x = some (v, r) →
      parseValue f (pyUNLGo false x) = some (v, pyUNLGo false r)) ∧
    (∀ (s : List Char) (vs : List JValue) (r : List Char), parseListRest f s = some (vs, r) →
      parseListRest f (pyUNLGo false s) = some (vs, pyUNLGo false r)) ∧
    (∀ (acc : List (List Char × JValue)) (s : List Char) (m : List (List Char × JValue))
      (r : List Char), parseObjRest f acc s = some (m, r) →
      parseObjRest f acc (pyUNLGo false s) = some (m, pyUNLGo false r)) := by
  induction f with
  | zero =>
    refine ⟨?_, ?_, ?_⟩
    · intro x v r h; rw [show parseValue 0 x = none from rfl] at h; exact Option.noConfusion h
    · intro s vs r h; rw [show parseListRest 0 s = none from rfl] at h
      exact Option.noConfusion h
    · intro acc s m r h; rw [show parseObjRest 0 acc s = none from rfl] at h
      exact Option.noConfusion h
  | succ g ih =>
    obtain ⟨ihPV, ihPL, ihPO⟩ := ih
    refine ⟨?_, ?_, ?_⟩
    · intro x v r h
      cases x with
      | nil =>
        rw [show parseValue (g + 1) ([] : List Char) = none from rfl] at h
        exact Option.noConfusion h
      | cons c rest =>
        rw [parseValue.eq_def] at h
        dsimp only [] at h
        by_cases h1 : c = '"'
        · subst h1
          rw [if_pos rfl] at h
          cases hsb : parseStringBody (rest.length + 1) rest with
          | none => rw [hsb] at h; exact Option.noConfusion h
          | some p =>
            obtain ⟨sb, rb⟩ := p
            rw [hsb] at h
            simp only [Option.map_some', Option.some.injEq, Prod.mk.injEq] at h
            obtain ⟨rfl, rfl⟩ := h
            rw [pyUNLGo_cons '"' (by decide), parseValue.eq_def]
            dsimp only []
            rw [if_pos rfl, parseStringBody_pyUNL_fwd (rest.length + 1) rest sb rb hsb]
            rfl
        · rw [if_neg h1] at h
          by_cases h2 : c = '['
          · subst h2
            rw [if_pos rfl] at h
            rcases skipWs_shape rest with hnil | ⟨d, rest2, hcons, hdws⟩
            · rw [hnil] at h
              dsimp only [] at h
              cases hrec : parseListRest g [] with
              | none => rw [hrec] at h; exact Option.noConfusion h
              | some p =>
                obtain ⟨vs, r1⟩ := p
                rw [hrec] at h
                simp only [Option.map_some', Option.some.injEq, Prod.mk.injEq] at h
                obtain ⟨rfl, rfl⟩ := h
                have hrec2 : parseListRest g (pyUNLGo false []) =
                    some (vs, pyUNLGo false r1) := ihPL [] vs r1 hrec
                rw [pyUNLGo_nil false] at hrec2
                rw [pyUNLGo_cons '[' (by decide), parseValue.eq_def]
                dsimp only []
                rw [if_neg (by decide : ¬('[' : Char) = '"'), if_pos rfl,
                  skipWs_pyUNLGo rest false, hnil, pyUNLGo_nil false]
                dsimp only []
                rw [hrec2]
                rfl
            · have hdcr : d ≠ '\x0d' := by rintro rfl; exact absurd hdws (by decide)
              rw [hcons] at h
              dsimp only [] at h
              by_cases hdb : d = ']'
              · rw [if_pos hdb] at h
                simp only [Option.some.injEq, Prod.mk.injEq] at h
                obtain ⟨rfl, rfl⟩ := h
                rw [pyUNLGo_cons '[' (by decide), parseValue.eq_def]
                dsimp only []
                rw [if_neg (by decide : ¬('[' : Char) = '"'), if_pos rfl,
                  skipWs_pyUNLGo rest false, hcons, pyUNLGo_cons d hdcr]
                dsimp only []
                rw [if_pos hdb]
              · rw [if_neg hdb] at h
                cases hrec : parseListRest g (d :: rest2) with
                | none => rw [hrec] at h; exact Option.noConfusion h
                | some p =>
                  obtain ⟨vs, r1⟩ := p
                  rw [hrec] at h
                  simp only [Option.map_some', Option.some.injEq, Prod.mk.injEq] at h
                  obtain ⟨rfl, rfl⟩ := h
                  have hrec2 := ihPL (d :: rest2) vs r1 hrec
                  rw [pyUNLGo_cons d hdcr] at hrec2
                  rw [pyUNLGo_cons '[' (by decide), parseValue.eq_def]
                  dsimp only []
                  rw [if_neg (by decide : ¬('[' : Char) = '"'), if_pos rfl,
                    skipWs_pyUNLGo rest false, hcons, pyUNLGo_cons d hdcr]
                  dsimp only []
                  rw [if_neg hdb, hrec2]
                  rfl
          · rw [if_neg h2] at h
            by_cases h3 : c = '{'
            · subst h3
              rw [if_pos rfl] at h
              rcases skipWs_shape rest with hnil | ⟨d, rest2, hcons, hdws⟩
              · rw [hnil] at h
                dsimp only [] at h
                cases hrec : parseObjRest g [] [] with
                | none => rw [hrec] at h; exact Option.noConfusion h
                | some p =>
                  obtain ⟨kvs, r1⟩ := p
                  rw [hrec] at h
                  simp only [Option.map_some', Option.some.injEq, Prod.mk.injEq] at h
                  obtain ⟨rfl, rfl⟩ := h
                  have hrec2 : parseObjRest g [] (pyUNLGo false []) =
                      some (kvs, pyUNLGo false r1) := ihPO [] [] kvs r1 hrec
                  rw [pyUNLGo_nil false] at hrec2
                  rw [pyUNLGo_cons '{' (by decide), parseValue.eq_def]
                  dsimp only []
                  rw [if_neg (by decide : ¬('{' : Char) = '"'),
                    if_neg (by decide : ¬('{' : Char) = '['), if_pos rfl,
                    skipWs_pyUNLGo rest false, hnil, pyUNLGo_nil false]
                  dsimp only []
                  rw [hrec2]
                  rfl
              · have hdcr : d ≠ '\x0d' := by rintro rfl; exact absurd hdws (by decide)
                rw [hcons] at h
                dsimp only [] at h
                by_cases hdb : d = '}'
                · rw [if_pos hdb] at h
                  simp only [Option.some.injEq, Prod.mk.injEq] at h
                  obtain ⟨rfl, rfl⟩ := h
                  rw [pyUNLGo_cons '{' (by decide), parseValue.eq_def]
                  dsimp only []
                  rw [if_neg (by decide : ¬('{' : Char) = '"'),
                    if_neg (by decide : ¬('{' : Char) = '['), if_pos rfl,
                    skipWs_pyUNLGo rest false, hcons, pyUNLGo_cons d hdcr]
                  dsimp only []
                  rw [if_pos hdb]
                · rw [if_neg hdb] at h
                  cases hrec : parseObjRest g [] (d :: rest2) with
                  | none => rw [hrec] at h; exact Option.noConfusion h
                  | some p =>
                    obtain ⟨kvs, r1⟩ := p
                    rw [hrec] at h
                    simp only [Option.map_some', Option.some.injEq, Prod.mk.injEq] at h
                    obtain ⟨rfl, rfl⟩ := h
                    have hrec2 := ihPO [] (d :: rest2) kvs r1 hrec
                    rw [pyUNLGo_cons d hdcr] at hrec2
                    rw [pyUNLGo_cons '{' (by decide), parseValue.eq_def]
                    dsimp only []
                    rw [if_neg (by decide : ¬('{' : Char) = '"'),
                      if_neg (by decide : ¬('{' : Char) = '['), if_pos rfl,
                      skipWs_pyUNLGo rest false, hcons, pyUNLGo_cons d hdcr]
                    dsimp only []
                    rw [if_neg hdb, hrec2]
                    rfl
            · rw [if_neg h3] at h
              by_cases h4 : c = 't'
              · subst h4
                rw [if_pos rfl] at h
                have hlit := parseLit_pyUNL_fwd (pstr "rue") (by decide)
                  (JValue.bool true) v rest r h
                rw [pyUNLGo_cons 't' (by decide), parseValue.eq_def]
                dsimp only []
                rw [if_neg (by decide : ¬('t' : Char) = '"'),
                  if_neg (by decide : ¬('t' : Char) = '['),
                  if_neg (by decide : ¬('t' : Char) = '{'), if_pos rfl]
                exact hlit
              · rw [if_neg h4] at h
                by_cases h5 : c = 'f'
                · subst h5
                  rw [if_pos rfl] at h
                  have hlit := parseLit_pyUNL_fwd (pstr "alse") (by decide)
                    (JValue.bool false) v rest r h
                  rw [pyUNLGo_cons 'f' (by decide), parseValue.eq_def]
                  dsimp only []
                  rw [if_neg (by decide : ¬('f' : Char) = '"'),
                    if_neg (by decide : ¬('f' : Char) = '['),
                    if_neg (by decide : ¬('f' : Char) = '{'),
                    if_neg (by decide : ¬('f' : Char) = 't'), if_pos rfl]
                  exact hlit
                · rw [if_neg h5] at h
                  by_cases h6 : c = 'n'
                  · subst h6
                    rw [if_pos rfl] at h
                    have hlit := parseLit_pyUNL_fwd (pstr "ull") (by decide)
                      JValue.null v rest r h
                    rw [pyUNLGo_cons 'n' (by decide), parseValue.eq_def]
                    dsimp only []
                    rw [if_neg (by decide : ¬('n' : Char) = '"'),
                      if_neg (by decide : ¬('n' : Char) = '['),
                      if_neg (by decide : ¬('n' : Char) = '{'),
                      if_neg (by decide : ¬('n' : Char) = 't'),
                      if_neg (by decide : ¬('n' : Char) = 'f'), if_pos rfl]
                    exact hlit
                  · rw [if_neg h6] at h
                    by_cases hcr : c = '\x0d'
                    · subst hcr
                      rw [parseIntLit_none_head '\x0d' rest (by decide) (by decide)] at h
                      exact Option.noConfusion h
                    · cases hil : parseIntLit (c :: rest) with
                      | none => rw [hil] at h; exact Option.noConfusion h
                      | some p =>
                        obtain ⟨n, r1⟩ := p
                        rw [hil] at h
                        simp only [Option.map_some', Option.some.injEq, Prod.mk.injEq] at h
                        obtain ⟨rfl, rfl⟩ := h
                        have hint : parseIntLit (c :: pyUNLGo false rest) =
                            some (n, pyUNLGo false r1) := by
                          rw [← pyUNLGo_cons c hcr, parseIntLit_pyUNL (c :: rest), hil]
                          rfl
                        rw [pyUNLGo_cons c hcr, parseValue.eq_def]
                        dsimp only []
                        rw [if_neg h1, if_neg h2, if_neg h3, if_neg h4, if_neg h5, if_neg h6,
                          hint]
                        rfl
    · intro s vs r h
      rw [parseListRest.eq_def] at h
      dsimp only [] at h
      cases hpv : parseValue g (skipWs s) with
      | none => rw [hpv] at h; exact Option.noConfusion h
      | some p =>
        obtain ⟨v, r1⟩ := p
        rw [hpv] at h
        dsimp only [] at h
        have hpv2 := ihPV (skipWs s) v r1 hpv
        rcases skipWs_shape r1 with hnil | ⟨d, r2, hcons, hdws⟩
        · rw [hnil] at h; dsimp only [] at h; exact Option.noConfusion h
        · have hdcr : d ≠ '\x0d' := by rintro rfl; exact absurd hdws (by decide)
          rw [hcons] at h
          dsimp only [] at h
          by_cases hdc : d = ','
          · rw [if_pos hdc] at h
            cases hrec : parseListRest g r2 with
            | none => rw [hrec] at h; exact Option.noConfusion h
            | some p2 =>
              obtain ⟨vs2, r3⟩ := p2
              rw [hrec] at h
              simp only [Option.map_some', Option.some.injEq, Prod.mk.injEq] at h
              obtain ⟨rfl, rfl⟩ := h
              have hrec2 := ihPL r2 vs2 r3 hrec
              rw [parseListRest.eq_def]
              dsimp only []
              rw [skipWs_pyUNLGo s false, hpv2]
              dsimp only []
              rw [skipWs_pyUNLGo r1 false, hcons, pyUNLGo_cons d hdcr]
              dsimp only []
              rw [if_pos hdc, hrec2]
              rfl
          · rw [if_neg hdc] at h
            by_cases hbr : d = ']'
            · rw [if_pos hbr] at h
              simp only [Option.some.injEq, Prod.mk.injEq] at h
              obtain ⟨rfl, rfl⟩ := h
              rw [parseListRest.eq_def]
              dsimp only []
              rw [skipWs_pyUNLGo s false, hpv2]
              dsimp only []
              rw [skipWs_pyUNLGo r1 false, hcons, pyUNLGo_cons d hdcr]
              dsimp only []
              rw [if_neg hdc, if_pos hbr]
            · rw [if_neg hbr] at h; exact Option.noConfusion h
    · intro acc s m r h
      rw [parseObjRest.eq_def] at h
      dsimp only [] at h
      rcases skipWs_shape s with hnil | ⟨d, r1, hcons, hdws⟩
      · rw [hnil] at h; dsimp only [] at h; exact Option.noConfusion h
      · have hdcr : d ≠ '\x0d' := by rintro rfl; exact absurd hdws (by decide)
        rw [hcons] at h
        dsimp only [] at h
        by_cases hdq : d = '"'
        · rw [if_pos hdq] at h
          cases hsb : parseStringBody (r1.length + 1) r1 with
          | none => rw [hsb] at h; exact Option.noConfusion h
          | some p =>
            obtain ⟨k, r2⟩ := p
            rw [hsb] at h
            dsimp only [] at h
            have hsb2 := parseStringBody_pyUNL_fwd (r1.length + 1) r1 k r2 hsb
            rcases skipWs_shape r2 with hnil2 | ⟨d2, r3, hcons2, hd2ws⟩
            · rw [hnil2] at h; dsimp only [] at h; exact Option.noConfusion h
            · have hd2cr : d2 ≠ '\x0d' := by rintro rfl; exact absurd hd2ws (by decide)
              rw [hcons2] at h
              dsimp only [] at h
              by_cases hco : d2 = ':'
              · rw [if_pos hco] at h
                cases hpv : parseValue g (skipWs r3) with
                | none => rw [hpv] at h; exact Option.noConfusion h
                | some pv =>
                  obtain ⟨v, r4⟩ := pv
                  rw [hpv] at h
                  dsimp only [] at h
                  have hpv2 := ihPV (skipWs r3) v r4 hpv
                  rcases skipWs_shape r4 with hnil3 | ⟨d3, r5, hcons3, hd3ws⟩
                  · rw [hnil3] at h; dsimp only [] at h; exact Option.noConfusion h
                  · have hd3cr : d3 ≠ '\x0d' := by rintro rfl; exact absurd hd3ws (by decide)
                    rw [hcons3] at h
                    dsimp only [] at h
                    by_cases hcm : d3 = ','
                    · rw [if_pos hcm] at h
                      have hrec2 := ihPO (insertKey acc k v) r5 m r h
                      rw [parseObjRest.eq_def]
                      dsimp only []
                      rw [skipWs_pyUNLGo s false, hcons, pyUNLGo_cons d hdcr]
                      dsimp only []
                      rw [if_pos hdq, hsb2]
                      dsimp only []
                      rw [skipWs_pyUNLGo r2 false, hcons2, pyUNLGo_cons d2 hd2cr]
                      dsimp only []
                      rw [if_pos hco, skipWs_pyUNLGo r3 false, hpv2]
                      dsimp only []
                      rw [skipWs_pyUNLGo r4 false, hcons3, pyUNLGo_cons d3 hd3cr]
                      dsimp only []
                      rw [if_pos hcm]
                      exact hrec2
                    · rw [if_neg hcm] at h
                      by_cases hbr2 : d3 = '}'
                      · rw [if_pos hbr2] at h
                        simp only [Option.some.injEq, Prod.mk.injEq] at h
                        obtain ⟨rfl, rfl⟩ := h
                        rw [parseObjRest.eq_def]
                        dsimp only []
                        rw [skipWs_pyUNLGo s false, hcons, pyUNLGo_cons d hdcr]
                        dsimp only []
                        rw [if_pos hdq, hsb2]
                        dsimp only []
                        rw [skipWs_pyUNLGo r2 false, hcons2, pyUNLGo_cons d2 hd2cr]
                        dsimp only []
                        rw [if_pos hco, skipWs_pyUNLGo r3 false, hpv2]
                        dsimp only []
                        rw [skipWs_pyUNLGo r4 false, hcons3, pyUNLGo_cons d3 hd3cr]
                        dsimp only []
                        rw [if_neg hcm, if_pos hbr2]
                      · rw [if_neg hbr2] at h; exact Option.noConfusion h
              · rw [if_neg hco] at h; exact Option.noConfusion h
        · rw [if_neg hdq] at h; exact Option.noConfusion h

/-- Backward simulation for the JSON value parser: a successful parse of a
newline-translated input pulls back to a successful parse of the original,
with translated remainder. -/
theorem parser_pyUNL_bwd (f : Nat) :
    (∀ (x : List Char) (v : JValue) (w : List Char),
      parseValue f (pyUNLGo false x) = some (v, w) →
      ∃ r, parseValue f x = some (v, r) ∧ w = pyUNLGo false r) ∧
    (∀ (s : List Char) (vs : List JValue) (w : List Char),
      parseListRest f (pyUNLGo false s) = some (vs, w) →
      ∃ r, parseListRest f s = some (vs, r) ∧ w = pyUNLGo false r) ∧
    (∀ (acc : List (List Char × JValue)) (s : List Char) (m : List (List Char × JValue))
      (w : List Char), parseObjRest f acc (pyUNLGo false s) = some (m, w) →
      ∃ r, parseObjRest f acc s = some (m, r) ∧ w = pyUNLGo false r) := by
  induction f with
  | zero =>
    refine ⟨?_, ?_, ?_⟩
    · intro x v w h; rw [show parseValue 0 (pyUNLGo false x) = none from rfl] at h
      exact Option.noConfusion h
    · intro s vs w h; rw [show parseListRest 0 (pyUNLGo false s) = none from rfl] at h
      exact Option.noConfusion h
    · intro acc s m w h; rw [show parseObjRest 0 acc (pyUNLGo false s) = none from rfl] at h
      exact Option.noConfusion h
  | succ g ih =>
    obtain ⟨ihPV, ihPL, ihPO⟩ := ih
    refine ⟨?_, ?_, ?_⟩
    · intro x v w h
      cases hTx : pyUNLGo false x with
      | nil =>
        rw [hTx, show parseValue (g + 1) ([] : List Char) = none from rfl] at h
        exact Option.noConfusion h
      | cons c w1 =>
        rw [hTx] at h
        by_cases hcn : c = '\n'
        · subst hcn; rw [parseValue_nl] at h; exact Option.noConfusion h
        · obtain ⟨x1, rfl, hw1⟩ := pyUNLGo_cons_inv c x w1 hcn hTx
          subst hw1
          rw [parseValue.eq_def] at h
          dsimp only [] at h
          by_cases h1 : c = '"'
          · subst h1
            rw [if_pos rfl] at h
            cases hsb : parseStringBody ((pyUNLGo false x1).length + 1) (pyUNLGo false x1) with
            | none => rw [hsb] at h; exact Option.noConfusion h
            | some p =>
              obtain ⟨sb, w0⟩ := p
              rw [hsb] at h
              simp only [Option.map_some', Option.some.injEq, Prod.mk.injEq] at h
              obtain ⟨rfl, rfl⟩ := h
              obtain ⟨rb, hrb, rfl⟩ := parseStringBody_pyUNL_bwd
                ((pyUNLGo false x1).length + 1) x1 sb w0 hsb
              refine ⟨rb, ?_, rfl⟩
              rw [parseValue.eq_def]
              dsimp only []
              rw [if_pos rfl, hrb]
              rfl
          · rw [if_neg h1] at h
            by_cases h2 : c = '['
            · subst h2
              rw [if_pos rfl] at h
              rw [skipWs_pyUNLGo x1 false] at h
              rcases skipWs_shape x1 with hnil | ⟨d, rest2, hcons, hdws⟩
              · rw [hnil, pyUNLGo_nil false] at h
                dsimp only [] at h
                cases hrec : parseListRest g [] with
                | none => rw [hrec] at h; exact Option.noConfusion h
                | some p =>
                  obtain ⟨vs, w0⟩ := p
                  rw [hrec] at h
                  simp only [Option.map_some', Option.some.injEq, Prod.mk.injEq] at h
                  obtain ⟨rfl, rfl⟩ := h
                  have hrec0 : parseListRest g (pyUNLGo false []) = some (vs, w0) := by
                    rw [pyUNLGo_nil false]; exact hrec
                  obtain ⟨r0, hr0, rfl⟩ := ihPL [] vs w0 hrec0
                  refine ⟨r0, ?_, rfl⟩
                  rw [parseValue.eq_def]
                  dsimp only []
                  rw [if_neg (by decide : ¬('[' : Char) = '"'), if_pos rfl, hnil]
                  dsimp only []
                  rw [hr0]
                  rfl
              · have hdcr : d ≠ '\x0d' := by rintro rfl; exact absurd hdws (by decide)
                rw [hcons, pyUNLGo_cons d hdcr] at h
                dsimp only [] at h
                by_cases hdb : d = ']'
                · rw [if_pos hdb] at h
                  simp only [Option.some.injEq, Prod.mk.injEq] at h
                  obtain ⟨rfl, rfl⟩ := h
                  refine ⟨rest2, ?_, rfl⟩
                  rw [parseValue.eq_def]
                  dsimp only []
                  rw [if_neg (by decide : ¬('[' : Char) = '"'), if_pos rfl, hcons]
                  dsimp only []
                  rw [if_pos hdb]
                · rw [if_neg hdb] at h
                  cases hrec : parseListRest g (d :: pyUNLGo false rest2) with
                  | none => rw [hrec] at h; exact Option.noConfusion h
                  | some p =>
                    obtain ⟨vs, w0⟩ := p
                    rw [hrec] at h
                    simp only [Option.map_some', Option.some.injEq, Prod.mk.injEq] at h
                    obtain ⟨rfl, rfl⟩ := h
                    rw [← pyUNLGo_cons d hdcr] at hrec
                    obtain ⟨r0, hr0, rfl⟩ := ihPL (d :: rest2) vs w0 hrec
                    refine ⟨r0, ?_, rfl⟩
                    rw [parseValue.eq_def]
                    dsimp only []
                    rw [if_neg (by decide : ¬('[' : Char) = '"'), if_pos rfl, hcons]
                    dsimp only []
                    rw [if_neg hdb, hr0]
                    rfl
            · rw [if_neg h2] at h
              by_cases h3 : c = '{'
              · subst h3
                rw [if_pos rfl] at h
                rw [skipWs_pyUNLGo x1 false] at h
                rcases skipWs_shape x1 with hnil | ⟨d, rest2, hcons, hdws⟩
                · rw [hnil, pyUNLGo_nil false] at h
                  dsimp only [] at h
                  cases hrec : parseObjRest g [] [] with
                  | none => rw [hrec] at h; exact Option.noConfusion h
                  | some p =>
                    obtain ⟨kvs, w0⟩ := p
                    rw [hrec] at h
                    simp only [Option.map_some', Option.some.injEq, Prod.mk.injEq] at h
                    obtain ⟨rfl, rfl⟩ := h
                    have hrec0 : parseObjRest g [] (pyUNLGo false []) = some (kvs, w0) := by
                      rw [pyUNLGo_nil false]; exact hrec
                    obtain ⟨r0, hr0, rfl⟩ := ihPO [] [] kvs w0 hrec0
                    refine ⟨r0, ?_, rfl⟩
                    rw [parseValue.eq_def]
                    dsimp only []
                    rw [if_neg (by decide : ¬('{' : Char) = '"'),
                      if_neg (by decide : ¬('{' : Char) = '['), if_pos rfl, hnil]
                    dsimp only []
                    rw [hr0]
                    rfl
                · have hdcr : d ≠ '\x0d' := by rintro rfl; exact absurd hdws (by decide)
                  rw [hcons, pyUNLGo_cons d hdcr] at h
                  dsimp only [] at h
                  by_cases hdb : d = '}'
                  · rw [if_pos hdb] at h
                    simp only [Option.some.injEq, Prod.mk.injEq] at h
                    obtain ⟨rfl, rfl⟩ := h
                    refine ⟨rest2, ?_, rfl⟩
                    rw [parseValue.eq_def]
                    dsimp only []
                    rw [if_neg (by decide : ¬('{' : Char) = '"'),
                      if_neg (by decide : ¬('{' : Char) = '['), if_pos rfl, hcons]
                    dsimp only []
                    rw [if_pos hdb]
                  · rw [if_neg hdb] at h
                    cases hrec : parseObjRest g [] (d :: pyUNLGo false rest2) with
                    | none => rw [hrec] at h; exact Option.noConfusion h
                    | some p =>
                      obtain ⟨kvs, w0⟩ := p
                      rw [hrec] at h
                      simp only [Option.map_some', Option.some.injEq, Prod.mk.injEq] at h
                      obtain ⟨rfl, rfl⟩ := h
                      rw [← pyUNLGo_cons d hdcr] at hrec
                      obtain ⟨r0, hr0, rfl⟩ := ihPO [] (d :: rest2) kvs w0 hrec
                      refine ⟨r0, ?_, rfl⟩
                      rw [parseValue.eq_def]
                      dsimp only []
                      rw [if_neg (by decide : ¬('{' : Char) = '"'),
                        if_neg (by decide : ¬('{' : Char) = '['), if_pos rfl, hcons]
                      dsimp only []
                      rw [if_neg hdb, hr0]
                      rfl
              · rw [if_neg h3] at h
                by_cases h4 : c = 't'
                · subst h4
                  rw [if_pos rfl] at h
                  obtain ⟨r0, hr0, rfl⟩ := parseLit_pyUNL_bwd (pstr "rue") (by decide)
                    (JValue.bool true) v x1 w h
                  refine ⟨r0, ?_, rfl⟩
                  rw [parseValue.eq_def]
                  dsimp only []
                  rw [if_neg (by decide : ¬('t' : Char) = '"'),
                    if_neg (by decide : ¬('t' : Char) = '['),
                    if_neg (by decide : ¬('t' : Char) = '{'), if_pos rfl]
                  exact hr0
                · rw [if_neg h4] at h
                  by_cases h5 : c = 'f'
                  · subst h5
                    rw [if_pos rfl] at h
                    obtain ⟨r0, hr0, rfl⟩ := parseLit_pyUNL_bwd (pstr "alse") (by decide)
                      (JValue.bool false) v x1 w h
                    refine ⟨r0, ?_, rfl⟩
                    rw [parseValue.eq_def]
                    dsimp only []
                    rw [if_neg (by decide : ¬('f' : Char) = '"'),
                      if_neg (by decide : ¬('f' : Char) = '['),
                      if_neg (by decide : ¬('f' : Char) = '{'),
                      if_neg (by decide : ¬('f' : Char) = 't'), if_pos rfl]
                    exact hr0
                  · rw [if_neg h5] at h
                    by_cases h6 : c = 'n'
                    · subst h6
                      rw [if_pos rfl] at h
                      obtain ⟨r0, hr0, rfl⟩ := parseLit_pyUNL_bwd (pstr "ull") (by decide)
                        JValue.null v x1 w h
                      refine ⟨r0, ?_, rfl⟩
                      rw [parseValue.eq_def]
                      dsimp only []
                      rw [if_neg (by decide : ¬('n' : Char) = '"'),
                        if_neg (by decide : ¬('n' : Char) = '['),
                        if_neg (by decide : ¬('n' : Char) = '{'),
                        if_neg (by decide : ¬('n' : Char) = 't'),
                        if_neg (by decide : ¬('n' : Char) = 'f'), if_pos rfl]
                      exact hr0
                    · rw [if_neg h6] at h
                      by_cases hcr : c = '\x0d'
                      · subst hcr
                        rw [parseIntLit_none_head '\x0d' (pyUNLGo false x1)
                          (by decide) (by decide)] at h
                        exact Option.noConfusion h
                      · have hint := parseIntLit_pyUNL (c :: x1)
                        rw [pyUNLGo_cons c hcr] at hint
                        rw [hint] at h
                        cases hil : parseIntLit (c :: x1) with
                        | none => rw [hil] at h; exact Option.noConfusion h
                        | some p =>
                          obtain ⟨n, r1⟩ := p
                          rw [hil] at h
                          simp only [Option.map_some', Option.some.injEq, Prod.mk.injEq] at h
                          obtain ⟨rfl, rfl⟩ := h
                          refine ⟨r1, ?_, rfl⟩
                          rw [parseValue.eq_def]
                          dsimp only []
                          rw [if_neg h1, if_neg h2, if_neg h3, if_neg h4, if_neg h5, if_neg h6,
                            hil]
                          rfl
    · intro s vs w h
      rw [parseListRest.eq_def] at h
      dsimp only [] at h
      rw [skipWs_pyUNLGo s false] at h
      cases hpv : parseValue g (pyUNLGo false (skipWs s)) with
      | none => rw [hpv] at h; exact Option.noConfusion h
      | some p =>
        obtain ⟨v, w1⟩ := p
        rw [hpv] at h
        dsimp only [] at h
        obtain ⟨r1, hr1, rfl⟩ := ihPV (skipWs s) v w1 hpv
        rw [skipWs_pyUNLGo r1 false] at h
        rcases skipWs_shape r1 with hnil | ⟨d, r2, hcons, hdws⟩
        · rw [hnil, pyUNLGo_nil false] at h; dsimp only [] at h; exact Option.noConfusion h
        · have hdcr : d ≠ '\x0d' := by rintro rfl; exact absurd hdws (by decide)
          rw [hcons, pyUNLGo_cons d hdcr] at h
          dsimp only [] at h
          by_cases hdc : d = ','
          · rw [if_pos hdc] at h
            cases hrec : parseListRest g (pyUNLGo false r2) with
            | none => rw [hrec] at h; exact Option.noConfusion h
            | some p2 =>
              obtain ⟨vs2, w3⟩ := p2
              rw [hrec] at h
              simp only [Option.map_some', Option.some.injEq, Prod.mk.injEq] at h
              obtain ⟨rfl, rfl⟩ := h
              obtain ⟨r3, hr3, rfl⟩ := ihPL r2 vs2 w3 hrec
              refine ⟨r3, ?_, rfl⟩
              rw [parseListRest.eq_def]
              dsimp only []
              rw [hr1]
              dsimp only []
              rw [hcons]
              dsimp only []
              rw [if_pos hdc, hr3]
              rfl
          · rw [if_neg hdc] at h
            by_cases hbr : d = ']'
            · rw [if_pos hbr] at h
              simp only [Option.some.injEq, Prod.mk.injEq] at h
              obtain ⟨rfl, rfl⟩ := h
              refine ⟨r2, ?_, rfl⟩
              rw [parseListRest.eq_def]
              dsimp only []
              rw [hr1]
              dsimp only []
              rw [hcons]
              dsimp only []
              rw [if_neg hdc, if_pos hbr]
            · rw [if_neg hbr] at h; exact Option.noConfusion h
    · intro acc s m w h
      rw [parseObjRest.eq_def] at h
      dsimp only [] at h
      rw [skipWs_pyUNLGo s false] at h
      rcases skipWs_shape s with hnil | ⟨d, r1, hcons, hdws⟩
      · rw [hnil, pyUNLGo_nil false] at h; dsimp only [] at h; exact Option.noConfusion h
      · have hdcr : d ≠ '\x0d' := by rintro rfl; exact absurd hdws (by decide)
        rw [hcons, pyUNLGo_cons d hdcr] at h
        dsimp only [] at h
        by_cases hdq : d = '"'
        · rw [if_pos hdq] at h
          cases hsb : parseStringBody ((pyUNLGo false r1).length + 1) (pyUNLGo false r1) with
          | none => rw [hsb] at h; exact Option.noConfusion h
          | some p =>
            obtain ⟨k, w2⟩ := p
            rw [hsb] at h
            dsimp only [] at h
            obtain ⟨r2, hr2, rfl⟩ := parseStringBody_pyUNL_bwd
              ((pyUNLGo false r1).length + 1) r1 k w2 hsb
            rw [skipWs_pyUNLGo r2 false] at h
            rcases skipWs_shape r2 with hnil2 | ⟨d2, r3, hcons2, hd2ws⟩
            · rw [hnil2, pyUNLGo_nil false] at h; dsimp only [] at h
              exact Option.noConfusion h
            · have hd2cr : d2 ≠ '\x0d' := by rintro rfl; exact absurd hd2ws (by decide)
              rw [hcons2, pyUNLGo_cons d2 hd2cr] at h
              dsimp only [] at h
              by_cases hco : d2 = ':'
              · rw [if_pos hco] at h
                rw [skipWs_pyUNLGo r3 false] at h
                cases hpv : parseValue g (pyUNLGo false (skipWs r3)) with
                | none => rw [hpv] at h; exact Option.noConfusion h
                | some pv =>
                  obtain ⟨v, w4⟩ := pv
                  rw [hpv] at h
                  dsimp only [] at h
                  obtain ⟨r4, hr4, rfl⟩ := ihPV (skipWs r3) v w4 hpv
                  rw [skipWs_pyUNLGo r4 false] at h
                  rcases skipWs_shape r4 with hnil3 | ⟨d3, r5, hcons3, hd3ws⟩
                  · rw [hnil3, pyUNLGo_nil false] at h; dsimp only [] at h
                    exact Option.noConfusion h
                  · have hd3cr : d3 ≠ '\x0d' := by rintro rfl; exact absurd hd3ws (by decide)
                    rw [hcons3, pyUNLGo_cons d3 hd3cr] at h
                    dsimp only [] at h
                    by_cases hcm : d3 = ','
                    · rw [if_pos hcm] at h
                      obtain ⟨r6, hr6, rfl⟩ := ihPO (insertKey acc k v) r5 m w h
                      refine ⟨r6, ?_, rfl⟩
                      rw [parseObjRest.eq_def]
                      dsimp only []
                      rw [hcons]
                      dsimp only []
                      rw [if_pos hdq, hr2]
                      dsimp only []
                      rw [hcons2]
                      dsimp only []
                      rw [if_pos hco, hr4]
                      dsimp only []
                      rw [hcons3]
                      dsimp only []
                      rw [if_pos hcm]
                      exact hr6
                    · rw [if_neg hcm] at h
                      by_cases hbr2 : d3 = '}'
                      · rw [if_pos hbr2] at h
                        simp only [Option.some.injEq, Prod.mk.injEq] at h
                        obtain ⟨rfl, rfl⟩ := h
                        refine ⟨r5, ?_, rfl⟩
                        rw [parseObjRest.eq_def]
                        dsimp only []
                        rw [hcons]
                        dsimp only []
                        rw [if_pos hdq, hr2]
                        dsimp only []
                        rw [hcons2]
                        dsimp only []
                        rw [if_pos hco, hr4]
                        dsimp only []
                        rw [hcons3]
                        dsimp only []
                        rw [if_neg hcm, if_pos hbr2]
                      · rw [if_neg hbr2] at h; exact Option.noConfusion h
              · rw [if_neg hco] at h; exact Option.noConfusion h
        · rw [if_neg hdq] at h; exact Option.noConfusion h

/-- `json.loads` is invariant under the universal-newline translation of
text-mode reading: translation only exchanges whitespace outside tokens,
fixes every character inside tokens, and preserves the parser fuel. -/
theorem jsonLoads_pyUNL (s : List Char) : jsonLoads (pyUniversalNewlines s) = jsonLoads s := by
  rw [pyUniversalNewlines]
  simp only [jsonLoads]
  rw [jsonMeat_pyUNLGo s false, skipWs_pyUNLGo s false]
  cases hpv : parseValue (2 * jsonMeat s + 4) (skipWs s) with
  | none =>
    cases hpv2 : parseValue (2 * jsonMeat s + 4) (pyUNLGo false (skipWs s)) with
    | none => rfl
    | some p =>
      obtain ⟨v, w⟩ := p
      obtain ⟨r, hr, rfl⟩ := (parser_pyUNL_bwd (2 * jsonMeat s + 4)).1 (skipWs s) v w hpv2
      rw [hpv] at hr
      exact Option.noConfusion hr
  | some p =>
    obtain ⟨v, r⟩ := p
    have hfwd := (parser_pyUNL_fwd (2 * jsonMeat s + 4)).1 (skipWs s) v r hpv
    rw [hfwd]
    dsimp only []
    rw [skipWs_pyUNLGo r false]
    by_cases hre : skipWs r = []
    · rw [hre, pyUNLGo_nil false]
    · have hne : pyUNLGo false (skipWs r) ≠ [] :=
        fun hh => hre ((pyUNLGo_nil_iff (skipWs r)).mp hh)
      rw [if_neg hne, if_neg hre]

/-- C7 (amended): an invalid-JSON payload fails with the `Invalid JSON file`
error before `call_abacus_api` is invoked and exposes no artifact record; a
payload parsing to a JSON OBJECT without the `tickets` key is not fatal — in
mock mode the request succeeds with `tickets_analyzed = 0`.  (The original
claim's "any payload that parses" is refuted by `c7_counterexample`: a
non-object payload such as `[]` is fatal.) -/
theorem c7_amended_invalid_json_and_optional_tickets :
    (∀ (cfg : Config) (sev jt : List Char) (net : NetOutcome), jsonLoads jt = none →
      analyze cfg (utf8Encode sev) (utf8Encode jt) net
        = (.failure (pstr "Invalid JSON file: " ++ jsonDecodeDetail), false))
    ∧ (∀ (cfg : Config) (sev jt : List Char) (net : NetOutcome)
        (kvs : List (List Char × JValue)),
        cfg.just_log_prompts = true →
        jsonLoads jt = some (.obj kvs) →
        lookupKey kvs (pstr "tickets") = none →
        resultSuccess (analyze cfg (utf8Encode sev) (utf8Encode jt) net).1 = true
        ∧ resultTickets (analyze cfg (utf8Encode sev) (utf8Encode jt) net).1 = 0) := by
  constructor
  · intro cfg sev jt net hj
    unfold analyze
    rw [reader_utf8Encode sev, reader_utf8Encode jt]
    dsimp only []
    rw [jsonLoads_pyUNL jt, hj]
  · intro cfg sev jt net kvs hmock hj hlook
    unfold analyze
    rw [reader_utf8Encode sev, reader_utf8Encode jt]
    dsimp only []
    rw [jsonLoads_pyUNL jt, hj]
    dsimp only []
    unfold analyzeAfterParse
    rw [if_neg (by simp [jIsObj])]
    rw [show ticketsMembership (JValue.obj kvs) = .ok false from by
      simp [ticketsMembership, hlook]]
    dsimp only []
    rw [show call_abacus_api cfg
          (buildPrompt (pyUniversalNewlines sev) (pyUniversalNewlines jt)) net
        = (.ok (.str mockResponse), false) from by
      unfold call_abacus_api
      rw [if_pos hmock]]
    dsimp only []
    rw [show ticketsCount (JValue.obj kvs) = .ok 0 from by
      simp [ticketsCount, hlook]]
    exact ⟨rfl, rfl⟩

set_option maxRecDepth 10000 in
/-- C7, witness for the amended theorem: the spec's invalid payload
`{"tickets":` fails before the API call with the invalid-JSON error; the
empty object `{}` parses, lacks `tickets`, and succeeds with zero tickets. -/
theorem c7_amended_invalid_json_and_optional_tickets_witness :
    analyze cfgMockNoLog (utf8Encode sevScenario1)
        (utf8Encode (pstr "\x7b\"tickets\":")) net0
      = (.failure (pstr "Invalid JSON file: " ++ jsonDecodeDetail), false)
    ∧ resultSuccess
        (analyze cfgMockLog (utf8Encode sevScenario1) (utf8Encode (pstr "\x7b\x7d")) net0).1
      = true
    ∧ resultTickets
        (analyze cfgMockLog (utf8Encode sevScenario1) (utf8Encode (pstr "\x7b\x7d")) net0).1
      = 0 :=
  ⟨c7_amended_invalid_json_and_optional_tickets.1 cfgMockNoLog sevScenario1
      (pstr "\x7b\"tickets\":") net0 (by rfl),
    (c7_amended_invalid_json_and_optional_tickets.2 cfgMockLog sevScenario1
      (pstr "\x7b\x7d") net0 [] (by rfl) (by rfl) (by rfl)).1,
    (c7_amended_invalid_json_and_optional_tickets.2 cfgMockLog sevScenario1
      (pstr "\x7b\x7d") net0 [] (by rfl) (by rfl) (by rfl)).2⟩

set_option maxRecDepth 10000 in
/-- C7, counterexample: the payload `[]` is valid JSON and has no `tickets`
key, yet the request is fatal — `json_data.get('tickets', [])` on app.py
line 306 raises `AttributeError` on a list — refuting "a payload that parses
but lacks the tickets key is not fatal". -/
theorem c7_counterexample :
    jsonLoads (pstr "[]") = some (.arr [])
    ∧ (analyze cfgMockNoLog (utf8Encode sevScenario1) (utf8Encode (pstr "[]")) net0).1
      = .failure (pstr "Analysis failed: \x27list\x27 object has no attribute \x27get\x27") :=
  ⟨by rfl, by rfl⟩
